import Mathlib

/-!
Verification of the GeoRAW core against its natural-language specification.

The development shallowly embeds the algorithmic core of the repository:
the series detector (internal/series/run.go), the clock-offset estimator
(internal/app/offset.go), the GPX track index (internal/gpx), and the XMP
sidecar merge engine (internal/xmp/writer.go).

Modelling conventions:
- Go time.Time instants and time.Duration values are embedded as Int,
  counted in nanoseconds (Go stores both as int64 nanoseconds; the programs
  under study never overflow int64, so Int is a faithful model).
- Go float64 coordinate arithmetic is idealized as exact rational (Rat)
  arithmetic.
- Go strings are embedded as List Char; the documents manipulated by the
  merge engine are ASCII, and byte positions coincide with character
  positions on them.
- Fallible Go functions returning (T, error) are embedded as Except.
-/

set_option maxHeartbeats 1000000
set_option maxRecDepth 4000

namespace GeoRAW

/-! ## Series detector: internal/series/run.go -/

namespace Series

/-- One shot record entering phase-2 sequential grouping (seriesJob in
internal/series/run.go): the file path, the capture timestamp in
nanoseconds, and the filename-derived sequence number (parseSequence
returns -1 when no trailing digits are present, so negative means
unknown). -/
structure SeriesJob where
  path : String
  captureTime : Int
  seq : Int
  deriving DecidableEq, Repr

/-- maxGapDefault = 1100 * time.Millisecond, in nanoseconds. -/
def maxGapDefault : Int := 1100 * 1000000

/-- maxGapSequential = 2200 * time.Millisecond, in nanoseconds. -/
def maxGapSequential : Int := 2200 * 1000000

/-- minSeriesLen = 3. -/
def minSeriesLen : Nat := 3

/-- sameSeries (internal/series/run.go, lines 513-526): two records
continue one group when the capture-time gap is in [0, allowed], where
allowed is 2200 ms if both sequence numbers are known (nonnegative) and
consecutive, and 1100 ms otherwise; known but non-consecutive sequence
numbers refuse immediately. -/
def sameSeries (prev nxt : SeriesJob) : Bool :=
  let gap := nxt.captureTime - prev.captureTime
  if 0 ≤ prev.seq ∧ 0 ≤ nxt.seq then
    if nxt.seq - prev.seq ≠ 1 then false
    else decide (0 ≤ gap ∧ gap ≤ maxGapSequential)
  else
    decide (0 ≤ gap ∧ gap ≤ maxGapDefault)

/-- Loop body of buildGroups: current is the group being grown, prev is
its last element (the invariant prev = current.getLast is maintained at
every call site, mirroring the Go code's current[len(current)-1]). -/
def buildGroupsAux (prev : SeriesJob) (current : List SeriesJob) :
    List SeriesJob → List (List SeriesJob)
  | [] => [current]
  | nxt :: rest =>
    if sameSeries prev nxt then buildGroupsAux nxt (current ++ [nxt]) rest
    else current :: buildGroupsAux nxt [nxt] rest

/-- buildGroups (internal/series/run.go, lines 360-379): left-to-right scan
splitting the time-sorted batch wherever sameSeries fails. -/
def buildGroups : List SeriesJob → List (List SeriesJob)
  | [] => []
  | j :: rest => buildGroupsAux j [j] rest

/-- Modelled from the spec (section 4.3, phase 2): two consecutive records
join the same group when their filename sequence numbers are both known and
consecutive (exact +1) and their capture-time gap is at most 2200 ms, or,
when either sequence number is unknown, the capture-time gap alone is at
most 1100 ms. -/
def specJoinsGroup (a b : SeriesJob) : Prop :=
  (0 ≤ a.seq ∧ 0 ≤ b.seq ∧ b.seq - a.seq = 1 ∧
    b.captureTime - a.captureTime ≤ maxGapSequential)
  ∨ (¬(0 ≤ a.seq ∧ 0 ≤ b.seq) ∧ b.captureTime - a.captureTime ≤ maxGapDefault)

instance (a b : SeriesJob) : Decidable (specJoinsGroup a b) := by
  unfold specJoinsGroup; infer_instance

theorem buildGroupsAux_join (rest : List SeriesJob) :
    ∀ prev current, (buildGroupsAux prev current rest).flatten = current ++ rest := by
  induction rest with
  | nil => intro prev current; simp [buildGroupsAux]
  | cons nxt rest ih =>
    intro prev current
    by_cases h : sameSeries prev nxt
    · simp [buildGroupsAux, h, ih]
    · simp [buildGroupsAux, h, ih]

theorem buildGroupsAux_shape (rest : List SeriesJob) :
    ∀ prev current, ∃ t gs,
      buildGroupsAux prev current rest = (current ++ t) :: gs := by
  induction rest with
  | nil => intro prev current; exact ⟨[], [], by simp [buildGroupsAux]⟩
  | cons nxt rest ih =>
    intro prev current
    by_cases h : sameSeries prev nxt
    · obtain ⟨t, gs, hEq⟩ := ih nxt (current ++ [nxt])
      exact ⟨nxt :: t, gs, by simp [buildGroupsAux, h, hEq]⟩
    · exact ⟨[], buildGroupsAux nxt [nxt] rest, by simp [buildGroupsAux, h]⟩

theorem buildGroupsAux_chain (rest : List SeriesJob) :
    ∀ prev current, current.getLast? = some prev →
      current.Chain' (fun a b => sameSeries a b = true) →
      ∀ g ∈ buildGroupsAux prev current rest,
        g.Chain' (fun a b => sameSeries a b = true) := by
  induction rest with
  | nil =>
    intro prev current _ hchain g hg
    simp [buildGroupsAux] at hg; subst hg; exact hchain
  | cons nxt rest ih =>
    intro prev current hlast hchain g hg
    by_cases h : sameSeries prev nxt
    · simp only [buildGroupsAux, h, if_pos] at hg
      refine ih nxt (current ++ [nxt]) (by simp) ?_ g hg
      rw [List.chain'_append]
      refine ⟨hchain, List.chain'_singleton _, ?_⟩
      intro x hx y hy
      rw [hlast] at hx
      simp at hx hy
      subst hx; subst hy; exact h
    · simp only [buildGroupsAux, h, if_neg, Bool.false_eq_true,
        not_false_iff, List.mem_cons] at hg
      rcases hg with hg | hg
      · subst hg; exact hchain
      · exact ih nxt [nxt] (by simp) (List.chain'_singleton _) g hg

theorem buildGroupsAux_boundary (rest : List SeriesJob) :
    ∀ prev current, current.getLast? = some prev →
      (buildGroupsAux prev current rest).Chain'
        (fun g₁ g₂ => ∀ a b, g₁.getLast? = some a → g₂.head? = some b →
          sameSeries a b = false) := by
  induction rest with
  | nil =>
    intro prev current _
    simp [buildGroupsAux]
  | cons nxt rest ih =>
    intro prev current hlast
    by_cases h : sameSeries prev nxt
    · simp only [buildGroupsAux, h, if_pos]
      exact ih nxt (current ++ [nxt]) (by simp)
    · simp only [buildGroupsAux, h, if_neg, Bool.false_eq_true, not_false_iff]
      obtain ⟨t, gs, hEq⟩ := buildGroupsAux_shape rest nxt [nxt]
      rw [hEq]
      refine List.chain'_cons.2 ⟨?_, by rw [← hEq]; exact ih nxt [nxt] (by simp)⟩
      intro a b ha hb
      rw [hlast] at ha
      simp at ha hb
      subst ha; subst hb
      exact Bool.eq_false_iff.mpr h

theorem sameSeries_iff_specJoinsGroup (a b : SeriesJob)
    (h : a.captureTime ≤ b.captureTime) :
    sameSeries a b = true ↔ specJoinsGroup a b := by
  unfold sameSeries specJoinsGroup maxGapSequential maxGapDefault at *
  split_ifs with h1 h2
  · simp only [Bool.false_eq_true, false_iff]
    omega
  · simp only [decide_eq_true_eq]
    omega
  · simp only [decide_eq_true_eq]
    omega

/-- C2: in phase-2 sequential grouping, buildGroups splits the time-sorted
batch into groups so that (i) the groups concatenate back to the batch,
(ii) every pair of consecutive records inside one group passes sameSeries,
(iii) at every boundary between two produced groups the last record of the
first and the first record of the second fail sameSeries (any failure of
the test starts a new group), and (iv) on time-ordered pairs sameSeries is
exactly the spec's criterion: both sequence numbers known and differing by
exactly +1 with a gap of at most 2200 ms, or, when either sequence number
is unknown, a gap of at most 1100 ms alone. -/
theorem sequential_grouping_matches_spec (jobs : List SeriesJob) :
    (buildGroups jobs).flatten = jobs ∧
    (∀ g ∈ buildGroups jobs, g.Chain' (fun a b => sameSeries a b = true)) ∧
    (buildGroups jobs).Chain'
      (fun g₁ g₂ => ∀ a b, g₁.getLast? = some a → g₂.head? = some b →
        sameSeries a b = false) ∧
    (∀ a b : SeriesJob, a.captureTime ≤ b.captureTime →
      (sameSeries a b = true ↔ specJoinsGroup a b)) := by
  refine ⟨?_, ?_, ?_, fun a b h => sameSeries_iff_specJoinsGroup a b h⟩
  · cases jobs with
    | nil => simp [buildGroups]
    | cons j rest => simpa using buildGroupsAux_join rest j [j]
  · cases jobs with
    | nil => simp [buildGroups]
    | cons j rest =>
      exact fun g hg =>
        buildGroupsAux_chain rest j [j] (by simp) (List.chain'_singleton _) g hg
  · cases jobs with
    | nil => simp [buildGroups]
    | cons j rest => exact buildGroupsAux_boundary rest j [j] (by simp)

/-- Witness for C2 at the spec's own example: a record with sequence 12 and
one with sequence 15 only 100 ms later (a sequence break with a small time
gap) do not satisfy the grouping criterion, so the scan puts them in two
distinct groups. -/
theorem sequential_grouping_matches_spec_witness :
    (buildGroups [⟨"a.cr3", 0, 12⟩, ⟨"b.cr3", 100000000, 15⟩]).flatten =
        [⟨"a.cr3", 0, 12⟩, ⟨"b.cr3", 100000000, 15⟩] ∧
    (sameSeries ⟨"a.cr3", 0, 12⟩ ⟨"b.cr3", 100000000, 15⟩ = true ↔
        specJoinsGroup ⟨"a.cr3", 0, 12⟩ ⟨"b.cr3", 100000000, 15⟩) ∧
    buildGroups [⟨"a.cr3", 0, 12⟩, ⟨"b.cr3", 100000000, 15⟩] =
        [[⟨"a.cr3", 0, 12⟩], [⟨"b.cr3", 100000000, 15⟩]] :=
  ⟨(sequential_grouping_matches_spec
      [⟨"a.cr3", 0, 12⟩, ⟨"b.cr3", 100000000, 15⟩]).1,
   (sequential_grouping_matches_spec
      [⟨"a.cr3", 0, 12⟩, ⟨"b.cr3", 100000000, 15⟩]).2.2.2
      ⟨"a.cr3", 0, 12⟩ ⟨"b.cr3", 100000000, 15⟩ (by decide),
   by decide⟩

/-! ### The group-processing loop of run (internal/series/run.go) -/

/-- Detection mode (internal/series/options.go). -/
inductive Mode where
  | auto
  | hdr
  | focus
  deriving DecidableEq, Repr

/-- seriesGroup (internal/series/run.go): the member jobs plus the optional
forced classification set by anchored HDR detection. -/
structure SeriesGroup where
  jobs : List SeriesJob
  forcedType : Option Mode
  deriving DecidableEq, Repr

/-- app.FileResult: per-file outcome record. -/
structure FileResult where
  path : String
  status : String
  message : String
  deriving DecidableEq, Repr

/-- The four ways one xmp.MergeKeywords call can come back to the loop:
ErrKeywordsAlreadyPresent, another error, a write, or no write without
error.  The sidecar write is an external effect, abstracted to the outcome
the loop dispatches on. -/
inductive MergeOutcome where
  | alreadyPresent
  | fail (msg : String)
  | wrote
  | unchangedSidecar
  deriving DecidableEq, Repr

/-- A record of one keyword-merge invocation the loop performed: the
originating job path and the tag list passed to xmp.MergeKeywords. -/
structure TagOp where
  jobPath : String
  tags : List String
  deriving DecidableEq, Repr

/-- Zero-padding of fmt.Sprintf's %05d verb for the series counter. -/
def pad5 (n : Nat) : String :=
  let s := Nat.repr n
  String.mk (List.replicate (5 - s.length) '0') ++ s

/-- The per-group tagging loop of run (internal/series/run.go lines
233-322), with its two collaborators passed as parameters: shouldTag
models shouldTagHDR with the run options baked in, and mergeOutcome models
the result of xmp.MergeKeywords at a given path.  typeTag stands for the
seriesTypeTag constant (declared outside the sources under study).  The
loop skips groups shorter than minSeriesLen with a too-short result per
member, skips undetected groups, and otherwise allocates the next series
id and merges keywords for every member, recording per-file results as the
Go code does. -/
def processGroups (shouldTag : List SeriesJob → Bool)
    (mergeOutcome : String → MergeOutcome)
    (typeTag pfx : String) (extraTags : List String) :
    Nat → List SeriesGroup → List FileResult × List TagOp
  | _, [] => ([], [])
  | seriesIdx, group :: rest =>
    if group.jobs.length < minSeriesLen then
      let results := group.jobs.map
        (fun job => FileResult.mk job.path "skipped" "Series too short")
      let next := processGroups shouldTag mergeOutcome typeTag pfx extraTags
        seriesIdx rest
      (results ++ next.1, next.2)
    else if group.forcedType = none ∧ ¬ shouldTag group.jobs then
      let results := group.jobs.map
        (fun job => FileResult.mk job.path "skipped" "Not detected as HDR")
      let next := processGroups shouldTag mergeOutcome typeTag pfx extraTags
        seriesIdx rest
      (results ++ next.1, next.2)
    else
      let seriesID := pfx ++ "_" ++ pad5 seriesIdx
      let tags := typeTag :: seriesID :: extraTags
      let results := group.jobs.map (fun job =>
        match mergeOutcome job.path with
        | .alreadyPresent =>
          FileResult.mk job.path "unchanged" "Series tags already present"
        | .fail msg => FileResult.mk job.path "failed" msg
        | .wrote =>
          FileResult.mk job.path "processed" (typeTag ++ " [" ++ seriesID ++ "]")
        | .unchangedSidecar => FileResult.mk job.path "unchanged" "Sidecar unchanged")
      let ops := group.jobs.map (fun job => TagOp.mk job.path tags)
      let next := processGroups shouldTag mergeOutcome typeTag pfx extraTags
        (seriesIdx + 1) rest
      (results ++ next.1, ops ++ next.2)

theorem processGroups_ops_from_long (shouldTag : List SeriesJob → Bool)
    (mergeOutcome : String → MergeOutcome) (typeTag pfx : String)
    (extraTags : List String) :
    ∀ (startIdx : Nat) (groups : List SeriesGroup),
      ∀ op ∈ (processGroups shouldTag mergeOutcome typeTag pfx extraTags
          startIdx groups).2,
        ∃ g' ∈ groups, minSeriesLen ≤ g'.jobs.length ∧
          op.jobPath ∈ g'.jobs.map SeriesJob.path := by
  intro startIdx groups
  induction groups generalizing startIdx with
  | nil => intro op hop; simp [processGroups] at hop
  | cons group rest ih =>
    intro op hop
    simp only [processGroups] at hop
    split at hop
    · obtain ⟨g', hg', hlen, hmem⟩ := ih startIdx op hop
      exact ⟨g', List.mem_cons_of_mem _ hg', hlen, hmem⟩
    · split at hop
      · obtain ⟨g', hg', hlen, hmem⟩ := ih startIdx op hop
        exact ⟨g', List.mem_cons_of_mem _ hg', hlen, hmem⟩
      · rcases List.mem_append.mp hop with hop | hop
        · refine ⟨group, List.mem_cons_self _ _, by omega, ?_⟩
          obtain ⟨job, hjob, hEq⟩ := List.mem_map.mp hop
          exact hEq ▸ List.mem_map.mpr ⟨job, hjob, rfl⟩
        · obtain ⟨g', hg', hlen, hmem⟩ := ih (startIdx + 1) op hop
          exact ⟨g', List.mem_cons_of_mem _ hg', hlen, hmem⟩

theorem processGroups_short_reported (shouldTag : List SeriesJob → Bool)
    (mergeOutcome : String → MergeOutcome) (typeTag pfx : String)
    (extraTags : List String) :
    ∀ (startIdx : Nat) (groups : List SeriesGroup) (g : SeriesGroup),
      g ∈ groups → g.jobs.length < minSeriesLen →
      ∀ job ∈ g.jobs,
        FileResult.mk job.path "skipped" "Series too short" ∈
          (processGroups shouldTag mergeOutcome typeTag pfx extraTags
            startIdx groups).1 := by
  intro startIdx groups
  induction groups generalizing startIdx with
  | nil => intro g hg; simp at hg
  | cons group rest ih =>
    intro g hg hshort job hjob
    simp only [processGroups]
    rcases List.mem_cons.mp hg with hEq | hg'
    · subst hEq
      rw [if_pos hshort]
      exact List.mem_append_left _ (List.mem_map.mpr ⟨job, hjob, rfl⟩)
    · split
      · exact List.mem_append_right _ (ih startIdx g hg' hshort job hjob)
      · split
        · exact List.mem_append_right _ (ih startIdx g hg' hshort job hjob)
        · exact List.mem_append_right _ (ih (startIdx + 1) g hg' hshort job hjob)

/-- C8: a detected group shorter than the minimum series length of 3 is
reported but never tagged: every member receives a skipped per-file result
carrying the too-short message, every keyword-merge invocation the loop
performs originates from some group of length at least 3, and - when no
path occurs in two groups - no keyword merge is performed for any member
of the short group. -/
theorem short_groups_reported_never_tagged (shouldTag : List SeriesJob → Bool)
    (mergeOutcome : String → MergeOutcome) (typeTag pfx : String)
    (extraTags : List String) (startIdx : Nat) (groups : List SeriesGroup)
    (g : SeriesGroup) (hg : g ∈ groups)
    (hshort : g.jobs.length < minSeriesLen) :
    (∀ job ∈ g.jobs,
      FileResult.mk job.path "skipped" "Series too short" ∈
        (processGroups shouldTag mergeOutcome typeTag pfx extraTags
          startIdx groups).1) ∧
    (∀ op ∈ (processGroups shouldTag mergeOutcome typeTag pfx extraTags
        startIdx groups).2,
      ∃ g' ∈ groups, minSeriesLen ≤ g'.jobs.length ∧
        op.jobPath ∈ g'.jobs.map SeriesJob.path) ∧
    ((groups.map (fun g' => g'.jobs.map SeriesJob.path)).flatten.Nodup →
      ∀ job ∈ g.jobs,
        ∀ op ∈ (processGroups shouldTag mergeOutcome typeTag pfx extraTags
            startIdx groups).2,
          op.jobPath ≠ job.path) := by
  refine ⟨processGroups_short_reported shouldTag mergeOutcome typeTag pfx
      extraTags startIdx groups g hg hshort,
    processGroups_ops_from_long shouldTag mergeOutcome typeTag pfx extraTags
      startIdx groups, ?_⟩
  intro hnodup job hjob op hop hpath
  obtain ⟨g', hg', hlen, hmem⟩ := processGroups_ops_from_long shouldTag
    mergeOutcome typeTag pfx extraTags startIdx groups op hop
  rw [hpath] at hmem
  obtain ⟨i, hi, hgi⟩ := List.getElem_of_mem (List.mem_map_of_mem
    (fun gr => gr.jobs.map SeriesJob.path) hg)
  obtain ⟨i', hi', hgi'⟩ := List.getElem_of_mem (List.mem_map_of_mem
    (fun gr => gr.jobs.map SeriesJob.path) hg')
  have hlenmap : (groups.map (fun gr => gr.jobs.map SeriesJob.path)).length =
      groups.length := by simp
  have hdisj := (List.nodup_flatten.mp hnodup).2
  have hpair := List.pairwise_iff_getElem.mp hdisj
  have hjobpath : job.path ∈ g.jobs.map SeriesJob.path :=
    List.mem_map_of_mem SeriesJob.path hjob
  rcases lt_trichotomy i i' with hlt | hEq | hgt
  · exact (hpair i i' (by omega) (by omega) hlt)
      (by rw [hgi]; exact hjobpath) (by rw [hgi']; exact hmem)
  · subst hEq
    have hEq2 : g.jobs.map SeriesJob.path = g'.jobs.map SeriesJob.path :=
      hgi.symm.trans hgi'
    have hlen2 : g.jobs.length = g'.jobs.length := by
      have := congrArg List.length hEq2
      simpa using this
    omega
  · exact (hpair i' i (by omega) (by omega) hgt)
      (by rw [hgi']; exact hmem) (by rw [hgi]; exact hjobpath)



/-- Witness for C8: two groups, a two-member group (too short) and a
three-member group; both members of the short group are reported skipped
with the too-short message and no keyword merge touches their paths. -/
theorem short_groups_reported_never_tagged_witness :
    (∀ job ∈ (⟨[⟨"a", 0, 1⟩, ⟨"b", 1, 2⟩], none⟩ : SeriesGroup).jobs,
      FileResult.mk job.path "skipped" "Series too short" ∈
        (processGroups (fun _ => true) (fun _ => MergeOutcome.wrote) "hdr_mode"
          "ABC" [] 1
          [⟨[⟨"a", 0, 1⟩, ⟨"b", 1, 2⟩], none⟩,
           ⟨[⟨"c", 2, 3⟩, ⟨"d", 3, 4⟩, ⟨"e", 4, 5⟩], none⟩]).1) ∧
    (∀ op ∈ (processGroups (fun _ => true) (fun _ => MergeOutcome.wrote)
        "hdr_mode" "ABC" [] 1
        [⟨[⟨"a", 0, 1⟩, ⟨"b", 1, 2⟩], none⟩,
         ⟨[⟨"c", 2, 3⟩, ⟨"d", 3, 4⟩, ⟨"e", 4, 5⟩], none⟩]).2,
      ∃ g' ∈ [(⟨[⟨"a", 0, 1⟩, ⟨"b", 1, 2⟩], none⟩ : SeriesGroup),
           ⟨[⟨"c", 2, 3⟩, ⟨"d", 3, 4⟩, ⟨"e", 4, 5⟩], none⟩],
        minSeriesLen ≤ g'.jobs.length ∧
        op.jobPath ∈ g'.jobs.map SeriesJob.path) ∧
    ((([(⟨[⟨"a", 0, 1⟩, ⟨"b", 1, 2⟩], none⟩ : SeriesGroup),
        ⟨[⟨"c", 2, 3⟩, ⟨"d", 3, 4⟩, ⟨"e", 4, 5⟩], none⟩]).map
          (fun g' => g'.jobs.map SeriesJob.path)).flatten.Nodup →
      ∀ job ∈ (⟨[⟨"a", 0, 1⟩, ⟨"b", 1, 2⟩], none⟩ : SeriesGroup).jobs,
        ∀ op ∈ (processGroups (fun _ => true) (fun _ => MergeOutcome.wrote)
            "hdr_mode" "ABC" [] 1
            [⟨[⟨"a", 0, 1⟩, ⟨"b", 1, 2⟩], none⟩,
             ⟨[⟨"c", 2, 3⟩, ⟨"d", 3, 4⟩, ⟨"e", 4, 5⟩], none⟩]).2,
          op.jobPath ≠ job.path) :=
  short_groups_reported_never_tagged (fun _ => true)
    (fun _ => MergeOutcome.wrote) "hdr_mode" "ABC" [] 1
    [⟨[⟨"a", 0, 1⟩, ⟨"b", 1, 2⟩], none⟩,
     ⟨[⟨"c", 2, 3⟩, ⟨"d", 3, 4⟩, ⟨"e", 4, 5⟩], none⟩]
    ⟨[⟨"a", 0, 1⟩, ⟨"b", 1, 2⟩], none⟩ (by decide) (by decide)


end Series

/-! ## Track index: internal/gpx (src/unnamed/part_000) -/

namespace Gpx

/-- Coordinate (internal/gpx): latitude, longitude, optional altitude.
Go float64 values are idealized as exact rationals. -/
structure Coordinate where
  latitude : Rat
  longitude : Rat
  altitude : Option Rat
  deriving DecidableEq, Repr

/-- trackPoint (internal/gpx): a coordinate plus its UTC timestamp in
nanoseconds. -/
structure TrackPoint where
  coord : Coordinate
  time : Int
  deriving DecidableEq, Repr

/-- Errors CoordinateAt can surface: no points loaded, timestamp outside the
track bounds (ErrTimestampOutOfBounds), and - in the instrumented variant
only - an explicit marker for a division whose divisor is zero. -/
inductive GpxErr where
  | noPoints
  | outOfBounds
  | divByZero
  deriving DecidableEq, Repr

/-- Index of the first point whose timestamp is at or after the target,
or the length when there is none.  This is the value Go's sort.Search
computes for the predicate !points[i].time.Before(target); on a list
sorted by time the binary search and this linear scan agree, and the
first-index characterization below (searchPoints_lt_of_lt,
searchPoints_le_self) holds for every list. -/
def searchPoints (points : List TrackPoint) (target : Int) : Nat :=
  match points with
  | [] => 0
  | q :: qs => if target ≤ q.time then 0 else searchPoints qs target + 1

/-- The arithmetic of the interpolation step (part_000 lines 85-104):
linear-interpolate latitude, longitude and (when both sides carry it)
altitude by the already-computed elapsed-time fraction; one-sided altitude
is copied unchanged, absent altitude stays absent. -/
def lerpCoord (a b : Coordinate) (progress : Rat) : Coordinate :=
  ⟨a.latitude + progress * (b.latitude - a.latitude),
   a.longitude + progress * (b.longitude - a.longitude),
   match a.altitude, b.altitude with
   | some pa, some na => some (pa + progress * (na - pa))
   | some pa, none => some pa
   | none, some na => some na
   | none, none => none⟩

/-- The interpolation step of CoordinateAt (part_000 lines 76-104):
guard against a non-positive elapsed time (returning the earlier sample's
coordinate unchanged), otherwise interpolate by the elapsed-time
fraction. -/
def interpSegment (prev nxt : TrackPoint) (target : Int) : Coordinate :=
  let total : Rat := ((nxt.time - prev.time : Int) : Rat) / 1000000000
  if total ≤ 0 then prev.coord
  else lerpCoord prev.coord nxt.coord
    ((((target - prev.time : Int) : Rat) / 1000000000) / total)

/-- qdiv? makes division-by-zero explicit: it refuses a zero divisor. -/
def qdiv? (a b : Rat) : Option Rat :=
  if b = 0 then none else some (a / b)

/-- interpSegment with the elapsed-time division checked: if the divisor
were zero the divByZero marker would be returned instead of a result. -/
def interpSegmentChecked (prev nxt : TrackPoint) (target : Int) :
    Except GpxErr Coordinate :=
  let total : Rat := ((nxt.time - prev.time : Int) : Rat) / 1000000000
  if total ≤ 0 then .ok prev.coord
  else
    match qdiv? (((target - prev.time : Int) : Rat) / 1000000000) total with
    | none => .error .divByZero
    | some progress => .ok (lerpCoord prev.coord nxt.coord progress)

/-- CoordinateAt (part_000 lines 52-105) with the interpolation step passed
as a parameter so that the plain and the division-checked variants share
the search and branch structure verbatim: reject an empty index, reject a
target before the first or after the last point, binary-search the
bracketing pair, return exact hits and edge indices unchanged, otherwise
interpolate between points[idx-1] and points[idx]. -/
def coordinateAtWith (interp : TrackPoint → TrackPoint → Int → Except GpxErr Coordinate) :
    List TrackPoint → Int → Except GpxErr Coordinate
  | [], _ => .error .noPoints
  | p :: ps, target =>
    if target < p.time ∨ ((p :: ps).getLast (List.cons_ne_nil p ps)).time < target then
      .error .outOfBounds
    else
      let idx := searchPoints (p :: ps) target
      if hlt : idx < (p :: ps).length then
        if ((p :: ps).get ⟨idx, hlt⟩).time = target then
          .ok ((p :: ps).get ⟨idx, hlt⟩).coord
        else if idx = 0 then
          .ok p.coord
        else
          interp ((p :: ps).get ⟨idx - 1, by omega⟩) ((p :: ps).get ⟨idx, hlt⟩) target
      else
        .ok ((p :: ps).getLast (List.cons_ne_nil p ps)).coord

/-- CoordinateAt: the faithful embedding of (ti *TrackIndex).CoordinateAt. -/
def CoordinateAt : List TrackPoint → Int → Except GpxErr Coordinate :=
  coordinateAtWith (fun prev nxt target => .ok (interpSegment prev nxt target))

/-- CoordinateAt with its single division instrumented by qdiv?. -/
def CoordinateAtChecked : List TrackPoint → Int → Except GpxErr Coordinate :=
  coordinateAtWith interpSegmentChecked

theorem searchPoints_le_length (points : List TrackPoint) (target : Int) :
    searchPoints points target ≤ points.length := by
  induction points with
  | nil => simp [searchPoints]
  | cons q qs ih =>
    simp only [searchPoints, List.length_cons]
    split <;> omega

theorem searchPoints_lt_of_lt (points : List TrackPoint) (target : Int) :
    ∀ k, k < searchPoints points target →
      ∃ pt, points[k]? = some pt ∧ pt.time < target := by
  induction points with
  | nil => intro k hk; simp [searchPoints] at hk
  | cons q qs ih =>
    intro k hk
    by_cases h : target ≤ q.time
    · simp [searchPoints, h] at hk
    · simp only [searchPoints, h, if_false] at hk
      match k with
      | 0 => exact ⟨q, by simp, by omega⟩
      | k + 1 =>
        obtain ⟨pt, hpt, hlt⟩ := ih k (by omega)
        exact ⟨pt, by simpa using hpt, hlt⟩

theorem searchPoints_le_time (points : List TrackPoint) (target : Int) :
    searchPoints points target < points.length →
      ∃ pt, points[searchPoints points target]? = some pt ∧ target ≤ pt.time := by
  induction points with
  | nil => intro h; simp [searchPoints] at h
  | cons q qs ih =>
    intro h
    by_cases hc : target ≤ q.time
    · exact ⟨q, by simp [searchPoints, hc], hc⟩
    · have hv : searchPoints (q :: qs) target = searchPoints qs target + 1 := by
        simp [searchPoints, hc]
      rw [hv] at h ⊢
      obtain ⟨pt, hpt, hle⟩ := ih (by simpa using h)
      exact ⟨pt, by simpa using hpt, hle⟩

theorem interpSegmentChecked_ne_error (prev nxt : TrackPoint) (target : Int)
    (e : GpxErr) : interpSegmentChecked prev nxt target ≠ .error e := by
  unfold interpSegmentChecked
  dsimp only
  split
  · simp
  · next h =>
    unfold qdiv?
    rw [if_neg (fun h0 => h (le_of_eq h0))]
    simp

theorem interpSegmentChecked_eq (prev nxt : TrackPoint) (target : Int) :
    interpSegmentChecked prev nxt target = .ok (interpSegment prev nxt target) := by
  unfold interpSegmentChecked interpSegment
  dsimp only
  split
  · rfl
  · next h =>
    unfold qdiv?
    rw [if_neg (fun h0 => h (le_of_eq h0))]

theorem coordinateAtWith_congr
    (f g : TrackPoint → TrackPoint → Int → Except GpxErr Coordinate)
    (hfg : ∀ a b t, f a b t = g a b t) (points : List TrackPoint) (ts : Int) :
    coordinateAtWith f points ts = coordinateAtWith g points ts := by
  cases points with
  | nil => rfl
  | cons p ps =>
    simp only [coordinateAtWith]
    split
    · rfl
    · split
      · split
        · rfl
        · split
          · rfl
          · exact hfg _ _ _
      · rfl

theorem coordinateAtWith_error_cases
    (f : TrackPoint → TrackPoint → Int → Except GpxErr Coordinate)
    (points : List TrackPoint) (ts : Int) (e : GpxErr)
    (h : coordinateAtWith f points ts = .error e) :
    e = .noPoints ∨ e = .outOfBounds ∨ ∃ a b t, f a b t = .error e := by
  cases points with
  | nil => simp only [coordinateAtWith, Except.error.injEq] at h; exact Or.inl h.symm
  | cons p ps =>
    simp only [coordinateAtWith] at h
    split at h
    · simp only [Except.error.injEq] at h; exact Or.inr (Or.inl h.symm)
    · split at h
      · split at h
        · simp at h
        · split at h
          · simp at h
          · exact Or.inr (Or.inr ⟨_, _, _, h⟩)
      · simp at h

/-- C10: interpolation never divides by zero.  The guard at part_000 lines
80-82 returns the earlier bracketing sample's coordinate unchanged whenever
the elapsed time between the bracketing samples is not positive, and
consequently the instrumented variant of CoordinateAt, in which the single
division of the interpolation step reports a zero divisor explicitly,
coincides with CoordinateAt and can never surface the division-by-zero
marker, on every track and query time. -/
theorem interpolation_never_divides_by_zero :
    (∀ (prev nxt : TrackPoint) (target : Int), nxt.time ≤ prev.time →
        interpSegment prev nxt target = prev.coord) ∧
    (∀ (points : List TrackPoint) (ts : Int),
        CoordinateAtChecked points ts = CoordinateAt points ts) ∧
    (∀ (points : List TrackPoint) (ts : Int),
        CoordinateAtChecked points ts ≠ .error .divByZero) := by
  refine ⟨?_, ?_, ?_⟩
  · intro prev nxt target h
    have hz : ((nxt.time - prev.time : Int) : Rat) ≤ 0 := by
      have : (nxt.time - prev.time : Int) ≤ 0 := by omega
      exact_mod_cast this
    unfold interpSegment
    rw [if_pos (div_nonpos_iff.mpr (Or.inr ⟨hz, by norm_num⟩))]
  · intro points ts
    exact coordinateAtWith_congr _ _
      (fun a b t => (interpSegmentChecked_eq a b t).trans rfl) points ts
  · intro points ts h
    rcases coordinateAtWith_error_cases _ _ _ _ h with h1 | h1 | ⟨a, b, t, h1⟩
    · cases h1
    · cases h1
    · exact interpSegmentChecked_ne_error a b t _ h1

/-- x lies (inclusively) between a and b, whichever order a and b are in. -/
def Between (a b x : Rat) : Prop := min a b ≤ x ∧ x ≤ max a b

/-- The spec's convex-combination property (section 8, first bullet):
latitude and longitude of c lie between those of a and b; altitude lies
between when both sides carry it, is copied unchanged from the only side
carrying it, and is absent when neither side carries it. -/
def BracketsCoord (a b c : Coordinate) : Prop :=
  Between a.latitude b.latitude c.latitude ∧
  Between a.longitude b.longitude c.longitude ∧
  match a.altitude, b.altitude with
  | some pa, some na => ∃ v, c.altitude = some v ∧ Between pa na v
  | some pa, none => c.altitude = some pa
  | none, some na => c.altitude = some na
  | none, none => c.altitude = none

theorem lerp_between (a b t : Rat) (h0 : 0 ≤ t) (h1 : t ≤ 1) :
    Between a b (a + t * (b - a)) := by
  unfold Between
  rcases le_total a b with hab | hab
  · rw [min_eq_left hab, max_eq_right hab]
    constructor <;> nlinarith
  · rw [min_eq_right hab, max_eq_left hab]
    constructor <;> nlinarith

theorem between_self (a : Rat) : Between a a a := by
  unfold Between; simp

theorem bracketsCoord_self (c : Coordinate) : BracketsCoord c c c := by
  unfold BracketsCoord
  refine ⟨between_self _, between_self _, ?_⟩
  rcases hc : c.altitude with _ | pa
  · simp [hc]
  · simp only [hc]
    exact ⟨pa, rfl, between_self pa⟩

theorem lerpCoord_brackets (a b : Coordinate) (t : Rat)
    (h0 : 0 ≤ t) (h1 : t ≤ 1) : BracketsCoord a b (lerpCoord a b t) := by
  unfold BracketsCoord lerpCoord
  refine ⟨lerp_between _ _ _ h0 h1, lerp_between _ _ _ h0 h1, ?_⟩
  rcases ha : a.altitude with _ | pa <;> rcases hb : b.altitude with _ | na <;>
    simp only [ha, hb]
  exact ⟨pa + t * (na - pa), rfl, lerp_between _ _ _ h0 h1⟩

theorem interpSegment_brackets (prev nxt : TrackPoint) (target : Int)
    (h1 : prev.time < target) (h2 : target ≤ nxt.time) :
    BracketsCoord prev.coord nxt.coord (interpSegment prev nxt target) := by
  have htot : (0 : Rat) < ((nxt.time - prev.time : Int) : Rat) / 1000000000 := by
    apply div_pos
    · exact_mod_cast (by omega : (0 : Int) < nxt.time - prev.time)
    · norm_num
  have hnum0 : (0 : Rat) ≤ ((target - prev.time : Int) : Rat) / 1000000000 := by
    apply div_nonneg
    · exact_mod_cast (by omega : (0 : Int) ≤ target - prev.time)
    · norm_num
  have hnum_le : ((target - prev.time : Int) : Rat) / 1000000000 ≤
      ((nxt.time - prev.time : Int) : Rat) / 1000000000 := by
    apply div_le_div_of_nonneg_right ?_ (by norm_num : (0:Rat) ≤ 1000000000)
    exact_mod_cast (by omega : target - prev.time ≤ nxt.time - prev.time)
  unfold interpSegment
  dsimp only
  rw [if_neg (not_le.mpr htot)]
  exact lerpCoord_brackets _ _ _ (div_nonneg hnum0 (le_of_lt htot))
    ((div_le_one htot).mpr hnum_le)

/-- C4: for every loaded (time-sorted, nonempty) track and every query time
within the track's bounds, CoordinateAt succeeds and returns a coordinate
bracketed by two samples of the track - either an adjacent pair, or a
single sample counted twice for exact hits and edge indices - whose
latitude and longitude it lies between, whose altitudes it lies between
when both carry altitude, whose one-sided altitude it copies unchanged,
and whose absent altitude stays absent. -/
theorem interpolation_within_bracket (points : List TrackPoint) (ts : Int)
    (hsorted : points.Chain' (fun a b => a.time ≤ b.time))
    (hne : points ≠ [])
    (hlo : (points.head hne).time ≤ ts)
    (hhi : ts ≤ (points.getLast hne).time) :
    ∃ c, CoordinateAt points ts = .ok c ∧
      ∃ a b : TrackPoint,
        ((∃ i : Nat, points[i]? = some a ∧ points[i + 1]? = some b) ∨
          (a = b ∧ a ∈ points)) ∧
        BracketsCoord a.coord b.coord c := by
  cases points with
  | nil => exact absurd rfl hne
  | cons p ps =>
    have hlo' : p.time ≤ ts := by simpa using hlo
    have hguard : ¬(ts < p.time ∨ ((p :: ps).getLast (List.cons_ne_nil p ps)).time < ts) := by
      push_neg
      exact ⟨hlo', hhi⟩
    simp only [CoordinateAt, coordinateAtWith]
    rw [if_neg hguard]
    by_cases hlt : searchPoints (p :: ps) ts < (p :: ps).length
    · rw [dif_pos hlt]
      by_cases heq : (((p :: ps).get ⟨searchPoints (p :: ps) ts, hlt⟩).time = ts)
      · rw [if_pos heq]
        refine ⟨_, rfl, _, _, Or.inr ⟨rfl, List.get_mem _ _ _⟩, bracketsCoord_self _⟩
      · rw [if_neg heq]
        by_cases hz : searchPoints (p :: ps) ts = 0
        · rw [if_pos hz]
          exact ⟨_, rfl, p, p, Or.inr ⟨rfl, List.mem_cons_self p ps⟩,
            bracketsCoord_self _⟩
        · rw [if_neg hz]
          have hn1 : searchPoints (p :: ps) ts - 1 < (p :: ps).length := by omega
          obtain ⟨pt, hpt, hptlt⟩ :=
            searchPoints_lt_of_lt (p :: ps) ts (searchPoints (p :: ps) ts - 1)
              (by omega)
          obtain ⟨qt, hqt, hqtle⟩ := searchPoints_le_time (p :: ps) ts hlt
          have hpt' : pt = (p :: ps).get ⟨searchPoints (p :: ps) ts - 1, hn1⟩ := by
            rw [List.getElem?_eq_getElem hn1] at hpt
            simpa [List.get_eq_getElem] using hpt.symm
          have hqt' : qt = (p :: ps).get ⟨searchPoints (p :: ps) ts, hlt⟩ := by
            rw [List.getElem?_eq_getElem hlt] at hqt
            simpa [List.get_eq_getElem] using hqt.symm
          refine ⟨_, rfl, (p :: ps).get ⟨searchPoints (p :: ps) ts - 1, hn1⟩,
            (p :: ps).get ⟨searchPoints (p :: ps) ts, hlt⟩, Or.inl ⟨searchPoints (p :: ps) ts - 1, ?_, ?_⟩, ?_⟩
          · rw [List.getElem?_eq_getElem hn1]
            simp [List.get_eq_getElem]
          · rw [show searchPoints (p :: ps) ts - 1 + 1 = searchPoints (p :: ps) ts
                from by omega]
            rw [List.getElem?_eq_getElem hlt]
            simp [List.get_eq_getElem]
          · exact interpSegment_brackets _ _ _ (hpt' ▸ hptlt) (hqt' ▸ hqtle)
    · exfalso
      have hlen : searchPoints (p :: ps) ts = (p :: ps).length :=
        le_antisymm (searchPoints_le_length _ _) (by omega)
      have hlast : (p :: ps).length - 1 < searchPoints (p :: ps) ts := by
        rw [hlen]; simp
      obtain ⟨pt, hpt, hptlt⟩ := searchPoints_lt_of_lt (p :: ps) ts _ hlast
      have hbound : (p :: ps).length - 1 < (p :: ps).length := by simp
      rw [List.getElem?_eq_getElem hbound] at hpt
      have : ((p :: ps).getLast (List.cons_ne_nil p ps)).time < ts := by
        rw [List.getLast_eq_getElem]
        cases hpt; exact hptlt
      omega

/-- Witness for C4: a two-sample track queried midway between its samples. -/
theorem interpolation_within_bracket_witness :
    ∃ c, CoordinateAt [⟨⟨0, 0, none⟩, 0⟩, ⟨⟨1, 1, some 10⟩, 2000000000⟩]
        1000000000 = .ok c ∧
      ∃ a b : TrackPoint,
        ((∃ i : Nat,
            [⟨⟨0, 0, none⟩, 0⟩, ⟨⟨1, 1, some 10⟩, 2000000000⟩][i]? = some a ∧
            [⟨⟨0, 0, none⟩, 0⟩, ⟨⟨1, 1, some 10⟩, 2000000000⟩][i + 1]? = some b) ∨
          (a = b ∧ a ∈ [⟨⟨0, 0, none⟩, 0⟩, ⟨⟨1, 1, some 10⟩, 2000000000⟩])) ∧
        BracketsCoord a.coord b.coord c :=
  interpolation_within_bracket _ 1000000000 (List.chain'_pair.mpr (by decide))
    (by decide) (by decide) (by decide)

/-- C5 counterexample: on a legally loaded track that contains two samples
with the same timestamp but different coordinates (ties are permitted by
LoadTrack), querying at the second sample's timestamp returns the first
sample's coordinate, not the second sample's - so the claim that
interpolation queried at exactly a sample's timestamp returns that sample's
coordinate unchanged fails for the second sample. -/
theorem exact_hit_counterexample :
    List.Chain' (fun a b => a.time ≤ b.time)
      [(⟨⟨1, 1, none⟩, 0⟩ : TrackPoint), ⟨⟨2, 2, none⟩, 0⟩] ∧
    (⟨⟨2, 2, none⟩, 0⟩ : TrackPoint) ∈
      [(⟨⟨1, 1, none⟩, 0⟩ : TrackPoint), ⟨⟨2, 2, none⟩, 0⟩] ∧
    CoordinateAt [(⟨⟨1, 1, none⟩, 0⟩ : TrackPoint), ⟨⟨2, 2, none⟩, 0⟩]
      (⟨⟨2, 2, none⟩, 0⟩ : TrackPoint).time = .ok ⟨1, 1, none⟩ ∧
    (⟨1, 1, none⟩ : Coordinate) ≠ (⟨⟨2, 2, none⟩, 0⟩ : TrackPoint).coord := by
  refine ⟨List.chain'_pair.mpr (by decide), by simp, rfl, ?_⟩
  intro h
  have : (1 : Rat) = 2 := congrArg Coordinate.latitude h
  norm_num at this

/-- C5 amended: querying strictly before the first or strictly after the
last sample always fails with the out-of-bounds error, and querying at
exactly a sample's timestamp returns unchanged the coordinate of the
earliest sample bearing that timestamp (which is the queried sample itself
whenever its timestamp is unique in the track). -/
theorem exact_hit_and_out_of_bounds (points : List TrackPoint)
    (hsorted : points.Chain' (fun a b => a.time ≤ b.time)) :
    (∀ (hne : points ≠ []) (ts : Int),
        (ts < (points.head hne).time ∨ (points.getLast hne).time < ts) →
        CoordinateAt points ts = .error .outOfBounds) ∧
    (∀ i, ∀ hi : i < points.length,
        ∃ j, ∃ hj : j < points.length, j ≤ i ∧
          (points.get ⟨j, hj⟩).time = (points.get ⟨i, hi⟩).time ∧
          (∀ k, ∀ hk : k < points.length, k < j →
            (points.get ⟨k, hk⟩).time ≠ (points.get ⟨i, hi⟩).time) ∧
          CoordinateAt points ((points.get ⟨i, hi⟩).time) =
            .ok ((points.get ⟨j, hj⟩).coord)) := by
  haveI : IsTrans TrackPoint (fun a b => a.time ≤ b.time) :=
    ⟨fun _ _ _ h1 h2 => le_trans h1 h2⟩
  have hpg : ∀ a b : Fin points.length, a ≤ b →
      (points.get a).time ≤ (points.get b).time := by
    intro a b hab
    rcases lt_or_eq_of_le hab with hlt | heq
    · exact List.pairwise_iff_get.mp (List.chain'_iff_pairwise.mp hsorted) a b hlt
    · rw [heq]
  constructor
  · intro hne ts h
    cases points with
    | nil => exact absurd rfl hne
    | cons p ps =>
      simp only [CoordinateAt, coordinateAtWith]
      rw [if_pos (by simpa using h)]
  · intro i hi
    set ts := (points.get ⟨i, hi⟩).time with hts
    have hn_le : searchPoints points ts ≤ i := by
      by_contra hgt
      obtain ⟨pt, hpt, hlt⟩ := searchPoints_lt_of_lt points ts i (by omega)
      rw [List.getElem?_eq_getElem hi] at hpt
      have : pt = points.get ⟨i, hi⟩ := by
        simpa [List.get_eq_getElem] using hpt.symm
      rw [this] at hlt
      exact absurd hlt (lt_irrefl _)
    have hn_lt : searchPoints points ts < points.length := lt_of_le_of_lt hn_le hi
    have heqn : (points.get ⟨searchPoints points ts, hn_lt⟩).time = ts := by
      obtain ⟨qt, hqt, hle⟩ := searchPoints_le_time points ts hn_lt
      rw [List.getElem?_eq_getElem hn_lt] at hqt
      have hq : qt = points.get ⟨searchPoints points ts, hn_lt⟩ := by
        simpa [List.get_eq_getElem] using hqt.symm
      refine le_antisymm (hpg _ ⟨i, hi⟩ hn_le) ?_
      rw [← hq]; exact hle
    refine ⟨searchPoints points ts, hn_lt, hn_le, heqn, ?_, ?_⟩
    · intro k hk hklt
      obtain ⟨pt, hpt, hlt⟩ := searchPoints_lt_of_lt points ts k hklt
      rw [List.getElem?_eq_getElem hk] at hpt
      have : pt = points.get ⟨k, hk⟩ := by
        simpa [List.get_eq_getElem] using hpt.symm
      rw [this] at hlt
      exact ne_of_lt hlt
    · cases points with
      | nil => exact absurd hi (by simp)
      | cons p ps =>
        have hguard : ¬(ts < p.time ∨
            ((p :: ps).getLast (List.cons_ne_nil p ps)).time < ts) := by
          push_neg
          constructor
          · have := hpg ⟨0, by simp⟩ ⟨i, hi⟩ (by simp)
            simpa using this
          · rw [List.getLast_eq_getElem]
            have := hpg ⟨i, hi⟩ ⟨(p :: ps).length - 1, by simp⟩
              (by
                have hi' : i < ps.length + 1 := by simpa using hi
                simp only [Fin.mk_le_mk, List.length_cons]
                omega)
            simpa [List.get_eq_getElem] using this
        simp only [CoordinateAt, coordinateAtWith]
        rw [if_neg hguard, dif_pos hn_lt, if_pos heqn]

/-- Witness for the C5 amended theorem: a strictly increasing two-sample
track; the exact hit at the second sample returns that sample's own
coordinate, and a query before the first sample is out of bounds. -/
theorem exact_hit_and_out_of_bounds_witness :
    (∀ (hne : ([(⟨⟨1, 1, none⟩, 0⟩ : TrackPoint), ⟨⟨2, 2, none⟩, 7⟩] :
          List TrackPoint) ≠ []) (ts : Int),
        (ts < (([(⟨⟨1, 1, none⟩, 0⟩ : TrackPoint), ⟨⟨2, 2, none⟩, 7⟩]).head hne).time ∨
          (([(⟨⟨1, 1, none⟩, 0⟩ : TrackPoint), ⟨⟨2, 2, none⟩, 7⟩]).getLast hne).time < ts) →
        CoordinateAt [(⟨⟨1, 1, none⟩, 0⟩ : TrackPoint), ⟨⟨2, 2, none⟩, 7⟩] ts =
          .error .outOfBounds) ∧
    (∀ i, ∀ hi : i < ([(⟨⟨1, 1, none⟩, 0⟩ : TrackPoint), ⟨⟨2, 2, none⟩, 7⟩] :
          List TrackPoint).length,
        ∃ j, ∃ hj : j < ([(⟨⟨1, 1, none⟩, 0⟩ : TrackPoint), ⟨⟨2, 2, none⟩, 7⟩] :
          List TrackPoint).length, j ≤ i ∧
          (([(⟨⟨1, 1, none⟩, 0⟩ : TrackPoint), ⟨⟨2, 2, none⟩, 7⟩]).get ⟨j, hj⟩).time =
            (([(⟨⟨1, 1, none⟩, 0⟩ : TrackPoint), ⟨⟨2, 2, none⟩, 7⟩]).get ⟨i, hi⟩).time ∧
          (∀ k, ∀ hk : k < ([(⟨⟨1, 1, none⟩, 0⟩ : TrackPoint), ⟨⟨2, 2, none⟩, 7⟩] :
              List TrackPoint).length, k < j →
            (([(⟨⟨1, 1, none⟩, 0⟩ : TrackPoint), ⟨⟨2, 2, none⟩, 7⟩]).get ⟨k, hk⟩).time ≠
              (([(⟨⟨1, 1, none⟩, 0⟩ : TrackPoint), ⟨⟨2, 2, none⟩, 7⟩]).get ⟨i, hi⟩).time) ∧
          CoordinateAt [(⟨⟨1, 1, none⟩, 0⟩ : TrackPoint), ⟨⟨2, 2, none⟩, 7⟩]
              ((([(⟨⟨1, 1, none⟩, 0⟩ : TrackPoint), ⟨⟨2, 2, none⟩, 7⟩]).get ⟨i, hi⟩).time) =
            .ok ((([(⟨⟨1, 1, none⟩, 0⟩ : TrackPoint), ⟨⟨2, 2, none⟩, 7⟩]).get ⟨j, hj⟩).coord)) :=
  exact_hit_and_out_of_bounds _ (List.chain'_pair.mpr (by decide))

/-- Witness for C10: a degenerate segment whose two samples carry the same
timestamp yields the earlier sample's coordinate unchanged. -/
theorem interpolation_never_divides_by_zero_witness :
    interpSegment ⟨⟨1, 2, none⟩, 5⟩ ⟨⟨3, 4, none⟩, 5⟩ 5 = ⟨1, 2, none⟩ :=
  interpolation_never_divides_by_zero.1 ⟨⟨1, 2, none⟩, 5⟩ ⟨⟨3, 4, none⟩, 5⟩ 5
    (by decide)

/-- Nearest (part_000 lines 108-139): clamp to the first or last sample
outside the range, return exact hits and index 0 directly, otherwise pick
whichever bracketing sample is chronologically closer, ties favouring the
earlier one.  Fails only when no points are loaded. -/
def Nearest : List TrackPoint → Int → Except GpxErr (Coordinate × Int)
  | [], _ => .error .noPoints
  | p :: ps, target =>
    if target < p.time then .ok (p.coord, p.time)
    else if ((p :: ps).getLast (List.cons_ne_nil p ps)).time < target then
      .ok (((p :: ps).getLast (List.cons_ne_nil p ps)).coord,
           ((p :: ps).getLast (List.cons_ne_nil p ps)).time)
    else
      let idx := searchPoints (p :: ps) target
      if hlt : idx < (p :: ps).length then
        if ((p :: ps).get ⟨idx, hlt⟩).time = target ∨ idx = 0 then
          .ok (((p :: ps).get ⟨idx, hlt⟩).coord, ((p :: ps).get ⟨idx, hlt⟩).time)
        else
          let prev := (p :: ps).get ⟨idx - 1, by omega⟩
          let nxt := (p :: ps).get ⟨idx, hlt⟩
          if target - prev.time ≤ nxt.time - target then .ok (prev.coord, prev.time)
          else .ok (nxt.coord, nxt.time)
      else
        .ok (((p :: ps).getLast (List.cons_ne_nil p ps)).coord,
             ((p :: ps).getLast (List.cons_ne_nil p ps)).time)

end Gpx

/-! ## Offset estimator: internal/app/offset.go -/

namespace Offset

open Gpx

/-- photoJob (internal/app/offset.go): the path and the metadata capture
time (already in UTC nanoseconds) are all detectOffset reads. -/
structure PhotoJob where
  path : String
  captureTime : Int
  deriving DecidableEq, Repr

/-- maxAutoOffset = 12 * time.Hour, in nanoseconds. -/
def maxAutoOffset : Int := 12 * 3600 * 1000000000

/-- absDuration (internal/app/offset.go lines 56-61). -/
def absDuration (d : Int) : Int := if d < 0 then -d else d

/-- The error detectOffset returns when every pair is discarded. -/
inductive OffsetErr where
  | noUsableSamples
  deriving DecidableEq, Repr

/-- detectOffset (internal/app/offset.go lines 22-54): for each photo look
up the nearest track sample, skip pairs whose absolute difference exceeds
the 12-hour window (and pairs whose lookup failed), fail when nothing
survives, otherwise sort the differences and return their median - the
middle element for an odd count, the truncated average of the two middle
elements for an even count - together with the number of samples used.
Go's sort.Slice on the differences produces the unique ascending
rearrangement of the multiset of differences, which insertionSort computes
as well (sortInts_sorted_perm below). -/
def detectOffset (track : List TrackPoint) (photos : List PhotoJob) :
    Except OffsetErr (Int × Nat) :=
  let diffs := photos.filterMap (fun job =>
    match Nearest track job.captureTime with
    | .error _ => none
    | .ok (_, nearestTime) =>
      let diff := nearestTime - job.captureTime
      if maxAutoOffset < absDuration diff then none else some diff)
  if diffs = [] then .error .noUsableSamples
  else
    let sorted := diffs.insertionSort (fun a b => a ≤ b)
    let mid := diffs.length / 2
    if diffs.length % 2 = 0 then
      .ok (Int.tdiv (sorted.getD (mid - 1) 0 + sorted.getD mid 0) 2, diffs.length)
    else
      .ok (sorted.getD mid 0, diffs.length)

/-- Modelled from the spec (section 4.2): for each pair compute
trackTime - captureTime against the nearest track sample, then discard
every pair whose absolute difference exceeds the fixed 12-hour window. -/
def specSurvivors (track : List TrackPoint) (photos : List PhotoJob) : List Int :=
  (photos.filterMap (fun job =>
    match Nearest track job.captureTime with
    | .error _ => none
    | .ok (_, nearestTime) => some (nearestTime - job.captureTime))).filter
    (fun d => decide (absDuration d ≤ maxAutoOffset))

/-- Modelled from the spec (section 4.2): the median of a list - sort it
ascending; an odd-count list yields its middle element, an even-count list
the (truncated toward zero) average of its two middle values. -/
def specMedian (l : List Int) : Int :=
  let s := l.insertionSort (fun a b => a ≤ b)
  let mid := l.length / 2
  if l.length % 2 = 0 then Int.tdiv (s.getD (mid - 1) 0 + s.getD mid 0) 2
  else s.getD mid 0

theorem sortInts_sorted_perm (l : List Int) :
    (l.insertionSort (fun a b => a ≤ b)).Sorted (fun a b => a ≤ b) ∧
    (l.insertionSort (fun a b => a ≤ b)).Perm l :=
  ⟨List.sorted_insertionSort _ l, List.perm_insertionSort _ l⟩

theorem detectOffset_diffs_eq (track : List TrackPoint) (photos : List PhotoJob) :
    photos.filterMap (fun job =>
      match Nearest track job.captureTime with
      | .error _ => none
      | .ok (_, nearestTime) =>
        let diff := nearestTime - job.captureTime
        if maxAutoOffset < absDuration diff then none else some diff) =
    specSurvivors track photos := by
  unfold specSurvivors
  induction photos with
  | nil => rfl
  | cons job rest ih =>
    simp only [List.filterMap_cons]
    rcases hN : Nearest track job.captureTime with e | ⟨c, t⟩
    · simpa [hN] using ih
    · dsimp only
      by_cases hw : maxAutoOffset < absDuration (t - job.captureTime)
      · rw [if_pos hw]
        simp only [List.filter_cons, decide_eq_true_eq]
        rw [if_neg (by simpa using hw)]
        exact ih
      · rw [if_neg hw]
        simp only [List.filterMap_cons, List.filter_cons, decide_eq_true_eq]
        rw [if_pos (by omega)]
        rw [ih]

/-- C3: offset detection discards exactly the pairs whose absolute
difference between the nearest track sample's timestamp and the capture
time exceeds the 12-hour window, fails with the no-usable-samples error
precisely when every pair is discarded, and otherwise returns the median
of the surviving differences - averaging the two middle values when their
count is even - together with the count of samples used. -/
theorem detectOffset_matches_spec (track : List TrackPoint) (photos : List PhotoJob) :
    (detectOffset track photos = .error .noUsableSamples ↔
      specSurvivors track photos = []) ∧
    (specSurvivors track photos ≠ [] →
      detectOffset track photos =
        .ok (specMedian (specSurvivors track photos),
             (specSurvivors track photos).length)) := by
  unfold detectOffset specMedian
  rw [detectOffset_diffs_eq]
  by_cases h : specSurvivors track photos = []
  · rw [if_pos h]
    exact ⟨⟨fun _ => h, fun _ => rfl⟩, fun hc => absurd h hc⟩
  · rw [if_neg h]
    refine ⟨⟨fun hcontr => ?_, fun hc => absurd hc h⟩, fun _ => ?_⟩
    · split at hcontr <;> cases hcontr
    · dsimp only
      split <;> rfl

/-- Witness for C3: a one-point track at time 0; three photos whose
differences are -2, 5 and 9 seconds, plus one photo 13 hours before the
track that is discarded by the 12-hour window; the median of the three
survivors is 5 seconds and the sample count is 3. -/
theorem detectOffset_matches_spec_witness :
    specSurvivors [⟨⟨0, 0, none⟩, 0⟩]
        [⟨"a", 2000000000⟩, ⟨"b", -5000000000⟩, ⟨"c", -9000000000⟩,
         ⟨"d", 46800000000000⟩] ≠ [] ∧
    detectOffset [⟨⟨0, 0, none⟩, 0⟩]
        [⟨"a", 2000000000⟩, ⟨"b", -5000000000⟩, ⟨"c", -9000000000⟩,
         ⟨"d", 46800000000000⟩] =
      .ok (specMedian (specSurvivors [⟨⟨0, 0, none⟩, 0⟩]
          [⟨"a", 2000000000⟩, ⟨"b", -5000000000⟩, ⟨"c", -9000000000⟩,
           ⟨"d", 46800000000000⟩]),
        (specSurvivors [⟨⟨0, 0, none⟩, 0⟩]
          [⟨"a", 2000000000⟩, ⟨"b", -5000000000⟩, ⟨"c", -9000000000⟩,
           ⟨"d", 46800000000000⟩]).length) ∧
    specMedian (specSurvivors [⟨⟨0, 0, none⟩, 0⟩]
        [⟨"a", 2000000000⟩, ⟨"b", -5000000000⟩, ⟨"c", -9000000000⟩,
         ⟨"d", 46800000000000⟩]) = 5000000000 ∧
    (specSurvivors [⟨⟨0, 0, none⟩, 0⟩]
        [⟨"a", 2000000000⟩, ⟨"b", -5000000000⟩, ⟨"c", -9000000000⟩,
         ⟨"d", 46800000000000⟩]).length = 3 :=
  ⟨by decide,
   (detectOffset_matches_spec [⟨⟨0, 0, none⟩, 0⟩]
      [⟨"a", 2000000000⟩, ⟨"b", -5000000000⟩, ⟨"c", -9000000000⟩,
       ⟨"d", 46800000000000⟩]).2 (by decide),
   by decide, by decide⟩

end Offset

/-! ## Sidecar merge engine: internal/xmp/writer.go

Strings are embedded as List Char.  The specific regular expressions the
engine uses are embedded as hand-written scanners with Go regexp (RE2,
leftmost-first) semantics on the patterns in question; each scanner's doc
comment names the pattern it implements. -/

namespace Xmp

/-- ASCII lower-casing of one character; the documents the engine
manipulates are ASCII, on which strings.ToLower acts per byte. -/
def lowerChar (c : Char) : Char :=
  if 'A' ≤ c ∧ c ≤ 'Z' then Char.ofNat (c.toNat + 32) else c

/-- strings.ToLower on ASCII text. -/
def lowerStr (s : List Char) : List Char := s.map lowerChar

/-- Go strings.Contains: needle occurs contiguously in hay. -/
def strContains : List Char → List Char → Bool
  | hay, needle =>
    if needle.isPrefixOf hay then true
    else
      match hay with
      | [] => false
      | _ :: t => strContains t needle

/-- The text starts (case-insensitively) with the lower-case literal lit. -/
def startsCI (lit s : List Char) : Bool :=
  lowerStr (s.take lit.length) = lit

/-- Index of the first occurrence of c, if any. -/
def findCharIdx (c : Char) : List Char → Option Nat
  | [] => none
  | d :: rest =>
    if d = c then some 0 else (findCharIdx c rest).map (· + 1)

/-- Index of the first case-insensitive occurrence of the literal lit. -/
def findSub (lit : List Char) : List Char → Option Nat
  | [] => if startsCI lit [] then some 0 else none
  | s@(_ :: rest) =>
    if startsCI lit s then some 0 else (findSub lit rest).map (· + 1)

/-- First match of the position matcher m: m receives each suffix in turn
and reports the match length when the pattern matches at that position;
scanFirst returns the earliest position together with that length
(regexp leftmost semantics). -/
def scanFirst (m : List Char → Option Nat) : List Char → Option (Nat × Nat)
  | [] =>
    match m [] with
    | some len => some (0, len)
    | none => none
  | s@(_ :: rest) =>
    match m s with
    | some len => some (0, len)
    | none => (scanFirst m rest).map (fun p => (p.1 + 1, p.2))

/-- Fuel-driven loop of removeAll; the fuel - the input length at the top
call - strictly exceeds the consumed prefix at every recursive call, so
the zero-fuel branch is never reached. -/
def removeAllFuel (m : List Char → Option Nat) : Nat → List Char → List Char
  | _, [] => []
  | 0, s => s
  | fuel + 1, c :: rest =>
    match scanFirst m (c :: rest) with
    | none => c :: rest
    | some (st, len) =>
      if len = 0 then c :: rest
      else (c :: rest).take st ++ removeAllFuel m fuel ((c :: rest).drop (st + len))

/-- regexp ReplaceAllString with the empty replacement: delete every
(non-empty, non-overlapping, leftmost-first) match. -/
def removeAll (m : List Char → Option Nat) (s : List Char) : List Char :=
  removeAllFuel m s.length s

/-- Fuel-driven loop of findAll. -/
def findAllFuel (m : List Char → Option Nat) : Nat → List Char → List (List Char)
  | _, [] => []
  | 0, _ => []
  | fuel + 1, c :: rest =>
    match scanFirst m (c :: rest) with
    | none => []
    | some (st, len) =>
      if len = 0 then []
      else ((c :: rest).drop st).take len ::
        findAllFuel m fuel ((c :: rest).drop (st + len))

/-- regexp FindAllString: collect every (non-empty, non-overlapping,
leftmost-first) matched substring. -/
def findAll (m : List Char → Option Nat) (s : List Char) : List (List Char) :=
  findAllFuel m s.length s

theorem scanFirst_cons_none {m : List Char → Option Nat} {c : Char}
    {rest : List Char} (h : m (c :: rest) = none) :
    scanFirst m (c :: rest) = (scanFirst m rest).map (fun p => (p.1 + 1, p.2)) := by
  simp [scanFirst, h]

theorem scanFirst_of_match {m : List Char → Option Nat} {s : List Char}
    {len : Nat} (h : m s = some len) : scanFirst m s = some (0, len) := by
  cases s <;> simp [scanFirst, h]

/-- Shift lemma: when the matcher fails at every position inside the
prefix a, scanning a ++ b is scanning b shifted by the prefix length. -/
theorem scanFirst_append (m : List Char → Option Nat) (a b : List Char)
    (h : ∀ i, i < a.length → m (List.drop i (a ++ b)) = none) :
    scanFirst m (a ++ b) =
      (scanFirst m b).map (fun p => (p.1 + a.length, p.2)) := by
  induction a with
  | nil =>
    simp only [List.nil_append, List.length_nil]
    cases scanFirst m b <;> simp
  | cons c a ih =>
    have h0 : m (c :: (a ++ b)) = none := by
      have := h 0 (by simp)
      simpa using this
    rw [List.cons_append, scanFirst_cons_none h0]
    rw [ih (fun i hi => by
      have := h (i + 1) (by simp; omega)
      simpa using this)]
    cases scanFirst m b with
    | none => simp
    | some p => simp; omega

theorem scanFirst_none (m : List Char → Option Nat) (s : List Char)
    (h : ∀ i, i ≤ s.length → m (List.drop i s) = none) :
    scanFirst m s = none := by
  induction s with
  | nil =>
    have := h 0 (by simp)
    simp only [List.drop_nil] at this
    simp [scanFirst, this]
  | cons c rest ih =>
    have h0 : m (c :: rest) = none := by simpa using h 0 (by simp)
    rw [scanFirst_cons_none h0]
    rw [ih (fun i hi => by simpa using h (i + 1) (by simp; omega))]
    rfl

theorem removeAll_of_scanFirst_none (m : List Char → Option Nat)
    (s : List Char) (h : scanFirst m s = none) : removeAll m s = s := by
  cases s with
  | nil => rfl
  | cons c rest =>
    simp only [removeAll, List.length_cons, removeAllFuel, h]


/-- RE2 word character, for the \\b boundary assertion. -/
def isWordChar (c : Char) : Bool :=
  ('a' ≤ c ∧ c ≤ 'z') ∨ ('A' ≤ c ∧ c ≤ 'Z') ∨ ('0' ≤ c ∧ c ≤ '9') ∨ c = '_'

/-- RE2 \\s: tab, newline, form feed, carriage return, space. -/
def isSpaceRE (c : Char) : Bool :=
  c = ' ' ∨ c = '\t' ∨ c = '\n' ∨ c = '\x0c' ∨ c = '\r'

/-- unicode.IsSpace on ASCII, as used by strings.TrimSpace:
space and the control range tab through carriage return. -/
def isGoSpace (c : Char) : Bool :=
  c = ' ' ∨ ('\t' ≤ c ∧ c ≤ '\r')

/-- Length of the leading run of characters satisfying p. -/
def countWhile (p : Char → Bool) : List Char → Nat
  | [] => 0
  | c :: rest => if p c then countWhile p rest + 1 else 0

/-- strings.TrimSpace. -/
def trimSpace (s : List Char) : List Char :=
  ((s.dropWhile isGoSpace).reverse.dropWhile isGoSpace).reverse

/-- The apostrophe character. -/
def apos : Char := Char.ofNat 39

/-- Matcher for a pattern of the form openPre[^>]*>.*?closeLit under
(?is): openPre and closeLit are lower-case literals; the opening tag runs
to the first closing angle bracket, and the lazy dot takes the first
case-insensitive occurrence of closeLit. -/
def matchTagPairAt (openPre closeLit s : List Char) : Option Nat :=
  if startsCI openPre s then
    match findCharIdx '>' (s.drop openPre.length) with
    | none => none
    | some k =>
      match findSub closeLit (s.drop (openPre.length + k + 1)) with
      | none => none
      | some j => some (openPre.length + k + 1 + j + closeLit.length)
  else none

/-- The dc:subject block pattern of extractKeywords and stripSubject. -/
def mSubject : List Char → Option Nat :=
  matchTagPairAt "<dc:subject".data "</dc:subject>".data

/-- The nine gpsTagRegexes element names, in the order the Go slice
declares them (Ref variants first). -/
def gpsElemNames : List (List Char) :=
  ["gpslatituderef", "gpslatitude", "gpslongituderef", "gpslongitude",
   "gpsaltituderef", "gpsaltitude", "gpsversionid", "gpsdatestamp",
   "gpstimestamp"].map String.data

/-- One gpsTagRegexes pattern. -/
def mGpsElem (name : List Char) : List Char → Option Nat :=
  matchTagPairAt ("<exif:".data ++ name) ("</exif:".data ++ name ++ ['>'])

/-- stripGPSTagsFromXMP: delete the element-form GPS tags, one pattern
after the other in declaration order. -/
def stripGPSTagsFromXMP (text : List Char) : List Char :=
  gpsElemNames.foldl (fun t name => removeAll (mGpsElem name) t) text

/-- hasGPSData: lower-case substring probes for attribute and element
forms, then the nine element patterns. -/
def hasGPSData (data : List Char) : Bool :=
  ((["<exif:gpslatitude", "exif:gpslatitude=", "<exif:gpslongitude",
     "exif:gpslongitude=", "<exif:gpsaltitude", "exif:gpsaltitude=",
     "<exif:gpstimestamp", "exif:gpstimestamp=", "<exif:gpsdatestamp",
     "exif:gpsdatestamp="].map String.data).any
    (fun tag => strContains (lowerStr data) tag))
  || gpsElemNames.any (fun name => (scanFirst (mGpsElem name) data).isSome)

/-- The rdf:li pattern of extractKeywords, with its single capture group:
returns the full match length and the captured inner text. -/
def matchLiAt (s : List Char) : Option (Nat × List Char) :=
  if startsCI "<rdf:li".data s then
    match findCharIdx '>' (s.drop 7) with
    | none => none
    | some k =>
      match findSub "</rdf:li>".data (s.drop (7 + k + 1)) with
      | none => none
      | some j => some (7 + k + 1 + j + 9, (s.drop (7 + k + 1)).take j)
  else none

/-- Fuel-driven loop of collectLi. -/
def collectLiFuel : Nat → List Char → List (List Char)
  | _, [] => []
  | 0, _ => []
  | fuel + 1, c :: rest =>
    match matchLiAt (c :: rest) with
    | some (len, cap) =>
      if len = 0 then [] else cap :: collectLiFuel fuel ((c :: rest).drop len)
    | none => collectLiFuel fuel rest

/-- FindAllStringSubmatch for the rdf:li pattern: every captured group in
order. -/
def collectLi (s : List Char) : List (List Char) :=
  collectLiFuel s.length s

/-- xmlEscape: the five-entity escaping replacer. -/
def xmlEscape : List Char → List Char
  | [] => []
  | c :: rest =>
    (if c = '&' then "&amp;".data
     else if c = '<' then "&lt;".data
     else if c = '>' then "&gt;".data
     else if c = '"' then "&quot;".data
     else if c = apos then "&#39;".data
     else [c]) ++ xmlEscape rest

/-- Fuel-driven loop of htmlUnescape. -/
def htmlUnescapeFuel : Nat → List Char → List Char
  | _, [] => []
  | 0, s => s
  | fuel + 1, c :: rest =>
    if "&amp;".data.isPrefixOf (c :: rest) then
      '&' :: htmlUnescapeFuel fuel ((c :: rest).drop 5)
    else if "&lt;".data.isPrefixOf (c :: rest) then
      '<' :: htmlUnescapeFuel fuel ((c :: rest).drop 4)
    else if "&gt;".data.isPrefixOf (c :: rest) then
      '>' :: htmlUnescapeFuel fuel ((c :: rest).drop 4)
    else if "&quot;".data.isPrefixOf (c :: rest) then
      '"' :: htmlUnescapeFuel fuel ((c :: rest).drop 6)
    else if "&#39;".data.isPrefixOf (c :: rest) then
      apos :: htmlUnescapeFuel fuel ((c :: rest).drop 5)
    else c :: htmlUnescapeFuel fuel rest

/-- htmlUnescape: the inverse replacer, single pass, left to right; the
five entity sources are prefix-free, so the match at each position is
unambiguous. -/
def htmlUnescape (s : List Char) : List Char :=
  htmlUnescapeFuel s.length s

/-- normalizeTags: trim, drop empties, case-insensitively de-duplicate
keeping first-seen casing; seen is the set of lowered tags kept so far. -/
def normalizeTagsAux (seen : List (List Char)) :
    List (List Char) → List (List Char)
  | [] => []
  | t :: rest =>
    let t' := trimSpace t
    if t' = [] then normalizeTagsAux seen rest
    else if seen.contains (lowerStr t') then normalizeTagsAux seen rest
    else t' :: normalizeTagsAux (lowerStr t' :: seen) rest

/-- normalizeTags (internal/xmp keyword file, lines 535-551). -/
def normalizeTags (tags : List (List Char)) : List (List Char) :=
  normalizeTagsAux [] tags

/-- containsAll: every required tag already present, case-insensitively. -/
def containsAll (existing required : List (List Char)) : Bool :=
  if required.isEmpty then true
  else required.all (fun kw => (existing.map lowerStr).contains (lowerStr kw))

/-- First loop of mergeKeywordsInner: keep existing keywords, dropping the
ones a requested tag will replace when overwrite is set, de-duplicating
case-insensitively; returns the final seen set and the kept keywords. -/
def dedupKeep (overwrite : Bool) (tagSet : List (List Char)) :
    List (List Char) → List (List Char) → List (List Char) × List (List Char)
  | seen, [] => (seen, [])
  | seen, kw :: rest =>
    if overwrite ∧ tagSet.contains (lowerStr kw) then
      dedupKeep overwrite tagSet seen rest
    else if seen.contains (lowerStr kw) then
      dedupKeep overwrite tagSet seen rest
    else
      let r := dedupKeep overwrite tagSet (lowerStr kw :: seen) rest
      (r.1, kw :: r.2)

/-- Second loop of mergeKeywordsInner: append the requested tags whose
lowering is not yet seen. -/
def addTags (seen : List (List Char)) : List (List Char) → List (List Char)
  | [] => []
  | kw :: rest =>
    if seen.contains (lowerStr kw) then addTags seen rest
    else kw :: addTags (lowerStr kw :: seen) rest

/-- Byte-wise lexicographic order of Go's sort.Strings (on ASCII,
character order and byte order agree). -/
def strLe : List Char → List Char → Bool
  | [], _ => true
  | _ :: _, [] => false
  | x :: xs, y :: ys =>
    if x.toNat < y.toNat then true
    else if y.toNat < x.toNat then false
    else strLe xs ys

/-- sort.Strings: the ascending rearrangement (unique as a list of
values, so insertion sort computes the same list). -/
def sortStrings (l : List (List Char)) : List (List Char) :=
  l.insertionSort (fun a b => strLe a b = true)

/-- The merged keyword list of mergeKeywordsInner: kept existing keywords
then fresh tags, sorted for output stability. -/
def mergeKeywordLists (existing tags : List (List Char)) (overwrite : Bool) :
    List (List Char) :=
  let r := dedupKeep overwrite (tags.map lowerStr) [] existing
  sortStrings (r.2 ++ addTags r.1 tags)

/-- extractKeywords: the trimmed, unescaped, non-empty rdf:li payloads of
every dc:subject block. -/
def extractKeywords (inner : List Char) : List (List Char) :=
  (findAll mSubject inner).flatMap (fun block =>
    (collectLi block).filterMap (fun cap =>
      let val := trimSpace (htmlUnescape cap)
      if val = [] then none else some val))

/-- stripSubject: delete every dc:subject block, then trim. -/
def stripSubject (inner : List Char) : List Char :=
  trimSpace (removeAll mSubject inner)

/-- buildSubjectBlock. -/
def buildSubjectBlock (keywords : List (List Char)) : List Char :=
  "<dc:subject>\n  <rdf:Bag>\n".data ++
  keywords.flatMap (fun kw =>
    "    <rdf:li>".data ++ xmlEscape kw ++ "</rdf:li>\n".data) ++
  "  </rdf:Bag>\n</dc:subject>".data

/-- mergeKeywordsInner (keyword file lines 488-533): a no-op when
overwrite is off and every tag is present; otherwise rebuild the keyword
list as a full rewrite - strip the old subject blocks, append the new
block after the trimmed remainder (or alone when nothing remains). -/
def mergeKeywordsInner (inner : List Char) (tags : List (List Char))
    (overwrite : Bool) : List Char × Bool :=
  let existing := extractKeywords inner
  if overwrite = false ∧ containsAll existing tags = true then (inner, false)
  else
    let merged := mergeKeywordLists existing tags overwrite
    let trimmed := trimSpace (stripSubject inner)
    let block := buildSubjectBlock merged
    if trimmed = [] then (block, true)
    else (trimmed ++ '\n' :: block, true)

/-- Errors MergeKeywords surfaces to its caller. -/
inductive KwErr where
  | noTags
  | alreadyPresent
  deriving DecidableEq, Repr

/-- MergeKeywords and mergeKeywordPayload (keyword file lines 421-486) on
an existing parsed document, with the description's inner XML as the
document state: Go's parseXMP keeps the description's inner bytes verbatim
in the innerxml field and marshalXMP writes them back verbatim, so the
keyword logic is a function of the inner text.  Normalize the requested
tags, fail on an empty list, run the inner merge, convert an unchanged
result into ErrKeywordsAlreadyPresent (written back to storage only on
success). -/
def mergeKeywordsDoc (inner : List Char) (tags : List (List Char))
    (overwrite : Bool) : Except KwErr (List Char) :=
  let tags' := normalizeTags tags
  if tags' = [] then .error .noTags
  else
    let r := mergeKeywordsInner inner tags' overwrite
    if r.2 = false then .error .alreadyPresent
    else .ok r.1

/-- The stored sidecar after a merge call: only a successful merge
rewrites the stored bytes; any error leaves them untouched (MergeKeywords
returns before its WriteFile on every error path). -/
def storedAfter (stored : List Char) (res : Except KwErr (List Char)) :
    List Char :=
  match res with
  | .ok payload => payload
  | .error _ => stored


/-- The errors of the GPS merge path. -/
inductive GpsErr where
  | alreadyPresent
  | descriptionNotFound
  | invalidDescriptionTag
  deriving DecidableEq, Repr

/-- Decimal digits of a natural number. -/
def natDigits (n : Nat) : List Char := (Nat.repr n).data

/-- Left-pad with zeros to the given width. -/
def padLeftZeros (w : Nat) (s : List Char) : List Char :=
  List.replicate (w - s.length) '0' ++ s

def pad2N (n : Nat) : List Char := padLeftZeros 2 (natDigits n)

def pad4N (n : Nat) : List Char := padLeftZeros 4 (natDigits n)

def pad10N (n : Nat) : List Char := padLeftZeros 10 (natDigits n)

/-- Trailing-character trim: strings.TrimRight with a one-character set. -/
def trimRight (c : Char) (s : List Char) : List Char :=
  (s.reverse.dropWhile (· = c)).reverse

/-- formatGPSCoordinate (writer.go lines 71-96), on the exact-rational
idealization of float64, computed on the reduced numerator and denominator
so that it evaluates: whole degrees (the floor of the absolute value) plus
decimal minutes; the minutes are the fractional part times sixty, rounded
half away from zero at the tenth decimal (the Go code's math.Round of the
value times ten to the tenth) and printed with ten decimals as FormatFloat
with precision 10 prints them, then trailing zeros and a trailing dot are
trimmed; the hemisphere letter is sign-derived.  For a nonnegative
fraction r/d, rounding half away from zero of 6e11 * r / d is
(2 * 6e11 * r + d) / (2 * d) in integer division. -/
def formatGPSCoordinate (value : Rat) (positiveRef negativeRef : List Char) :
    List Char × List Char :=
  let ref := if value < 0 then negativeRef else positiveRef
  let n := value.num.natAbs
  let d := value.den
  let deg : Nat := n / d
  let r : Nat := n % d
  let m10 : Nat := (2 * 600000000000 * r + d) / (2 * d)
  let deg2 : Nat := if 600000000000 ≤ m10 then deg + 1 else deg
  let m10b : Nat := if 600000000000 ≤ m10 then 0 else m10
  let degStr := natDigits deg2
  let minStr0 := natDigits (m10b / 10000000000) ++
    '.' :: pad10N (m10b % 10000000000)
  let minStr1 := trimRight '.' (trimRight '0' minStr0)
  let minStr := if minStr1 = [] then ['0'] else minStr1
  (degStr ++ ',' :: minStr ++ ref, ref)

/-- Gregorian calendar date of a day count since 1970-01-01 (the civil
conversion time.Time performs for UTC instants). -/
def civilFromDays (z0 : Int) : Int × Nat × Nat :=
  let z := z0 + 719468
  let era := Int.fdiv z 146097
  let doe := (z - era * 146097).toNat
  let yoe := (doe - doe / 1460 + doe / 36524 - doe / 146096) / 365
  let doy := doe - (365 * yoe + yoe / 4 - yoe / 100)
  let mp := (5 * doy + 2) / 153
  let d := doy - (153 * mp + 2) / 5 + 1
  let m := if mp < 10 then mp + 3 else mp - 9
  let y := era * 400 + (yoe : Int) + (if m ≤ 2 then 1 else 0)
  (y, m, d)

/-- ts.UTC().Format of the colon-separated date layout. -/
def formatDateGo (ts : Int) : List Char :=
  let totalSec := Int.fdiv ts 1000000000
  let days := Int.fdiv totalSec 86400
  let c := civilFromDays days
  pad4N c.1.toNat ++ ':' :: pad2N c.2.1 ++ ':' :: pad2N c.2.2

/-- ts.UTC().Format of the colon-separated time-of-day layout. -/
def formatTimeGo (ts : Int) : List Char :=
  let totalSec := Int.fdiv ts 1000000000
  let sod := (Int.emod totalSec 86400).toNat
  pad2N (sod / 3600) ++ ':' :: pad2N (sod % 3600 / 60) ++ ':' :: pad2N (sod % 60)

/-- fmt with the zero-padded two-decimal float verb, for the altitude
value (nonnegative by construction; round half away from zero at the
second decimal, computed on the numerator and denominator). -/
def format2f (v : Rat) : List Char :=
  let c : Nat := (200 * v.num.natAbs + v.den) / (2 * v.den)
  natDigits (c / 100) ++ '.' :: padLeftZeros 2 (natDigits (c % 100))

/-- descriptionTagRegex: the case-insensitive rdf:Description opening tag,
a word boundary after the name, attributes up to the first closing angle
bracket. -/
def matchDescOpenAt (s : List Char) : Option Nat :=
  if startsCI "<rdf:description".data s then
    match s.drop 16 with
    | [] => none
    | c :: _ =>
      if isWordChar c then none
      else
        match findCharIdx '>' (s.drop 16) with
        | none => none
        | some k => some (16 + k + 1)
  else none

/-- FindStringIndex of descriptionTagRegex: start position and length of
the leftmost match. -/
def findDescOpen (text : List Char) : Option (Nat × Nat) :=
  scanFirst matchDescOpenAt text

/-- The gpsAttrRegex name alternatives, in the order the pattern lists
them. -/
def gpsAttrNames : List (List Char) :=
  ["latitude", "latituderef", "longitude", "longituderef", "altitude",
   "altituderef", "versionid", "datestamp", "timestamp"].map String.data

/-- A double- or single-quoted attribute value. -/
def matchQuoted : List Char → Option Nat
  | [] => none
  | c :: r =>
    if c = '"' then (findCharIdx '"' r).map (fun k => k + 2)
    else if c = apos then (findCharIdx apos r).map (fun k => k + 2)
    else none

/-- Optional whitespace, an equals sign, optional whitespace, a quoted
value. -/
def matchEqQuoted (s : List Char) : Option Nat :=
  let a := countWhile isSpaceRE s
  match s.drop a with
  | '=' :: r2 =>
    let b := countWhile isSpaceRE r2
    (matchQuoted (r2.drop (b + 0))).map (fun q => a + 1 + b + q)
  | _ => none

/-- Try the gpsAttrRegex name alternatives in order; each must be followed
by its equals-quoted value for the alternative to succeed (leftmost-first
alternation semantics). -/
def tryGpsNames : List (List Char) → List Char → Option Nat
  | [], _ => none
  | n :: rest, t =>
    if startsCI n t then
      match matchEqQuoted (t.drop n.length) with
      | some q => some (n.length + q)
      | none => tryGpsNames rest t
    else tryGpsNames rest t

/-- gpsAttrRegex: leading whitespace, the exif:GPS prefix, one of the nine
owned attribute names, an equals sign and a quoted value. -/
def matchGpsAttrAt (s : List Char) : Option Nat :=
  let ws := countWhile isSpaceRE s
  if ws = 0 then none
  else
    let t := s.drop ws
    if startsCI "exif:gps".data t then
      (tryGpsNames gpsAttrNames (t.drop 8)).map (fun n => ws + 8 + n)
    else none

/-- exifNamespaceRegex existence test: a word boundary, the xmlns:exif
name, an equals sign and a quoted value; the Boolean argument tracks
whether the previous character was a word character. -/
def hasExifNsAux : Bool → List Char → Bool
  | _, [] => false
  | prevWord, c :: rest =>
    (if prevWord then false
     else if startsCI "xmlns:exif".data (c :: rest) then
       (matchEqQuoted ((c :: rest).drop 10)).isSome
     else false)
    || hasExifNsAux (isWordChar c) rest

def exifNamespaceMatch (s : List Char) : Bool := hasExifNsAux false s

/-- guessAttributeIndent (writer.go lines 256-271): the leading blank run
of the last non-blank line, two spaces when there is none. -/
def guessAttributeIndent (pfx : List Char) : List Char :=
  ((pfx.splitOn '\n').reverse.find? (fun line => ¬ trimSpace line = [])).map
    (fun line => line.takeWhile (fun r => r = ' ' ∨ r = '\t'))
  |>.getD "  ".data

/-- Index of the last closing angle bracket. -/
def lastCharIdx (c : Char) (s : List Char) : Option Nat :=
  (findCharIdx c s.reverse).map (fun k => s.length - 1 - k)

/-- insertTagAttributes (writer.go lines 223-254). -/
def insertTagAttributes (tag : List Char) (attrs : List (List Char)) :
    Except GpsErr (List Char) :=
  if attrs = [] then .ok tag
  else
    match lastCharIdx '>' tag with
    | none => .error .invalidDescriptionTag
    | some closeIdx =>
      let pfx0 := tag.take closeIdx
      let sfx0 := tag.drop closeIdx
      let selfClose := pfx0.getLast? = some '/'
      let pfx := if selfClose then pfx0.dropLast else pfx0
      let sfx := if selfClose then "/>".data else sfx0
      if pfx.contains '\n' then
        let indent := guessAttributeIndent pfx
        .ok (pfx ++ attrs.flatMap (fun a => '\n' :: (indent ++ a)) ++ sfx)
      else
        .ok (pfx ++ ' ' :: List.intercalate [' '] attrs ++ sfx)

/-- The altitude fields of a coordinate as the Go code derives them:
value made nonnegative, reference 1 for below sea level. -/
def altParts (alt : Option Rat) : Option (Rat × Nat) :=
  match alt with
  | none => none
  | some v => if v < 0 then some (-v, 1) else some (v, 0)

/-- updateDescriptionTag (writer.go lines 173-221): strip the owned GPS
attributes from the opening tag, prepend the exif namespace declaration
when absent, and insert the freshly formatted GPS attribute set. -/
def updateDescriptionTag (tag : List Char) (coord : Gpx.Coordinate)
    (ts : Int) : Except GpsErr (List Char) :=
  let lat := formatGPSCoordinate coord.latitude "N".data "S".data
  let lon := formatGPSCoordinate coord.longitude "E".data "W".data
  let gpsDate := formatDateGo ts
  let gpsTime := formatTimeGo ts
  let clean := removeAll matchGpsAttrAt tag
  let nsAttrs : List (List Char) :=
    if exifNamespaceMatch clean then []
    else ["xmlns:exif=\"http://ns.adobe.com/exif/1.0/\"".data]
  let mainAttrs : List (List Char) :=
    ["exif:GPSLatitude=\"".data ++ lat.1 ++ ['"'],
     "exif:GPSLatitudeRef=\"".data ++ lat.2 ++ ['"'],
     "exif:GPSLongitude=\"".data ++ lon.1 ++ ['"'],
     "exif:GPSLongitudeRef=\"".data ++ lon.2 ++ ['"'],
     "exif:GPSVersionID=\"2.3.0.0\"".data,
     "exif:GPSDateStamp=\"".data ++ gpsDate ++ ['"'],
     "exif:GPSTimeStamp=\"".data ++ gpsTime ++ ['"']]
  let altAttrs : List (List Char) :=
    match altParts coord.altitude with
    | none => []
    | some av =>
      ["exif:GPSAltitude=\"".data ++ format2f av.1 ++ ['"'],
       "exif:GPSAltitudeRef=\"".data ++ natDigits av.2 ++ ['"']]
  insertTagAttributes clean (nsAttrs ++ mainAttrs ++ altAttrs)

/-- mergeGPSInPlace (writer.go lines 154-171): locate the description
opening tag, rewrite it, splice it back, then strip element-form GPS tags
from the whole document. -/
def mergeGPSInPlace (existing : List Char) (coord : Gpx.Coordinate)
    (ts : Int) : Except GpsErr (List Char) :=
  match findDescOpen existing with
  | none => .error .descriptionNotFound
  | some (st, len) =>
    match updateDescriptionTag ((existing.drop st).take len) coord ts with
    | .error e => .error e
    | .ok newTag =>
      .ok (stripGPSTagsFromXMP
        (existing.take st ++ newTag ++ existing.drop (st + len)))

/-- BuildSidecar (writer.go lines 25-69): the freshly synthesized sidecar
document. -/
def BuildSidecar (coord : Gpx.Coordinate) (ts : Int) : List Char :=
  let lat := formatGPSCoordinate coord.latitude "N".data "S".data
  let lon := formatGPSCoordinate coord.longitude "E".data "W".data
  "<?xpacket begin=\" \" id=\"W5M0MpCehiHzreSzNTczkc9d\"?>".data ++
  "\n<x:xmpmeta xmlns:x=\"adobe:ns:meta/\" x:xmptk=\"GeoRAW\">\n".data ++
  "  <rdf:RDF xmlns:rdf=\"http://www.w3.org/1999/02/22-rdf-syntax-ns#\">\n".data ++
  "    <rdf:Description rdf:about=\"\" xmlns:exif=\"http://ns.adobe.com/exif/1.0/\"".data ++
  " exif:GPSLatitude=\"".data ++ lat.1 ++ ['"'] ++
  " exif:GPSLatitudeRef=\"".data ++ lat.2 ++ ['"'] ++
  " exif:GPSLongitude=\"".data ++ lon.1 ++ ['"'] ++
  " exif:GPSLongitudeRef=\"".data ++ lon.2 ++ ['"'] ++
  (match altParts coord.altitude with
   | none => []
   | some av =>
     " exif:GPSAltitude=\"".data ++ format2f av.1 ++ ['"'] ++
     " exif:GPSAltitudeRef=\"".data ++ natDigits av.2 ++ ['"']) ++
  " exif:GPSVersionID=\"2.3.0.0\"".data ++
  " exif:GPSDateStamp=\"".data ++ formatDateGo ts ++ ['"'] ++
  " exif:GPSTimeStamp=\"".data ++ formatTimeGo ts ++ ['"'] ++
  ">\n    </rdf:Description>\n  </rdf:RDF>\n</x:xmpmeta>\n<?xpacket end=\"w\"?>".data

/-- mergeSidecar (writer.go lines 139-148). -/
def mergeSidecar (existing : List Char) (coord : Gpx.Coordinate)
    (ts : Int) : Except GpsErr (List Char) :=
  if trimSpace existing = [] then .ok (BuildSidecar coord ts)
  else mergeGPSInPlace existing coord ts

/-- MergeAndWrite (writer.go lines 115-137) as a function of the current
sidecar bytes (empty when the file does not exist): refuse when GPS data
is already present and overwrite is off, otherwise merge and return the
payload that is written back. -/
def MergeAndWrite (existing : List Char) (coord : Gpx.Coordinate)
    (ts : Int) (overwrite : Bool) : Except GpsErr (List Char) :=
  if overwrite = false ∧ 0 < existing.length ∧ hasGPSData existing = true then
    .error .alreadyPresent
  else mergeSidecar existing coord ts

/-- The stored sidecar after a GPS merge call: only success writes. -/
def gpsStoredAfter (existing : List Char) (res : Except GpsErr (List Char)) :
    List Char :=
  match res with
  | .ok payload => payload
  | .error _ => existing

/-- C7: a GPS merge with overwrite disabled against a sidecar that already
contains GPS fields fails with the already-present error and writes
nothing - the stored bytes are unchanged; and containing the engine's own
GPS latitude attribute form (case-insensitively) is sufficient for the
code's GPS-presence test. -/
theorem gps_already_present_writes_nothing :
    (∀ (existing : List Char) (coord : Gpx.Coordinate) (ts : Int),
      0 < existing.length → hasGPSData existing = true →
      MergeAndWrite existing coord ts false = .error .alreadyPresent ∧
      gpsStoredAfter existing (MergeAndWrite existing coord ts false) =
        existing) ∧
    (∀ doc : List Char,
      strContains (lowerStr doc) "exif:gpslatitude=".data = true →
      hasGPSData doc = true) := by
  constructor
  · intro existing coord ts hne hgps
    have : MergeAndWrite existing coord ts false = .error .alreadyPresent := by
      unfold MergeAndWrite
      rw [if_pos ⟨rfl, hne, hgps⟩]
    exact ⟨this, by rw [this]; rfl⟩
  · intro doc h
    unfold hasGPSData
    rw [Bool.or_eq_true]
    left
    rw [List.any_eq_true]
    refine ⟨"exif:gpslatitude=".data, by simp, h⟩

/-- Witness for C7: a small sidecar carrying a GPS latitude attribute. -/
theorem gps_already_present_writes_nothing_witness :
    (0 : Nat) <
        ("<rdf:Description exif:GPSLatitude=\"1,2N\"></rdf:Description>".data).length ∧
    hasGPSData
        "<rdf:Description exif:GPSLatitude=\"1,2N\"></rdf:Description>".data =
      true ∧
    MergeAndWrite
        "<rdf:Description exif:GPSLatitude=\"1,2N\"></rdf:Description>".data
        ⟨0, 0, none⟩ 0 false = .error .alreadyPresent ∧
    gpsStoredAfter
        "<rdf:Description exif:GPSLatitude=\"1,2N\"></rdf:Description>".data
        (MergeAndWrite
          "<rdf:Description exif:GPSLatitude=\"1,2N\"></rdf:Description>".data
          ⟨0, 0, none⟩ 0 false) =
      "<rdf:Description exif:GPSLatitude=\"1,2N\"></rdf:Description>".data := by
  have h1 : (0 : Nat) <
      ("<rdf:Description exif:GPSLatitude=\"1,2N\"></rdf:Description>".data).length := by
    decide
  have h2 : hasGPSData
      "<rdf:Description exif:GPSLatitude=\"1,2N\"></rdf:Description>".data = true := by
    decide
  have h3 := gps_already_present_writes_nothing.1
    "<rdf:Description exif:GPSLatitude=\"1,2N\"></rdf:Description>".data
    ⟨0, 0, none⟩ 0 h1 h2
  exact ⟨h1, h2, h3.1, h3.2⟩


/-- C1 counterexample: an existing sidecar document whose rdf:Description
opening tag carries an unrelated custom attribute with a closing angle
bracket inside its quoted value.  descriptionTagRegex stops the opening
tag at the first closing bracket - inside that value - and the GPS merge
splices its attributes there, so the unrelated field custom:note is not
byte-identical in the output: its original bytes no longer occur at all.
(The GPS presence guard does not protect this document: hasGPSData is
false for it, so a plain merge with overwrite off reaches this path.) -/
theorem gps_merge_frame_counterexample :
    strContains
        "<x:xmpmeta><rdf:RDF><rdf:Description custom:note=\"a>b\" rdf:about=\"\"></rdf:Description></rdf:RDF></x:xmpmeta>".data
        "custom:note=\"a>b\"".data = true ∧
    hasGPSData
        "<x:xmpmeta><rdf:RDF><rdf:Description custom:note=\"a>b\" rdf:about=\"\"></rdf:Description></rdf:RDF></x:xmpmeta>".data =
      false ∧
    ((mergeGPSInPlace
        "<x:xmpmeta><rdf:RDF><rdf:Description custom:note=\"a>b\" rdf:about=\"\"></rdf:Description></rdf:RDF></x:xmpmeta>".data
        ⟨0, 0, none⟩ 0).toOption.map
      (fun out => strContains out "custom:note=\"a>b\"".data)) = some false := by
  refine ⟨by decide, by decide, by decide⟩


instance instDecidableEqExcept {e a : Type} [DecidableEq e] [DecidableEq a] :
    DecidableEq (Except e a) := fun x y =>
  match x, y with
  | .ok v, .ok w =>
    if h : v = w then isTrue (by rw [h])
    else isFalse (by intro hh; cases hh; exact h rfl)
  | .ok _, .error _ => isFalse (by intro hh; cases hh)
  | .error _, .ok _ => isFalse (by intro hh; cases hh)
  | .error v, .error w =>
    if h : v = w then isTrue (by rw [h])
    else isFalse (by intro hh; cases hh; exact h rfl)

theorem stripGPS_id (text : List Char)
    (h : ∀ name ∈ gpsElemNames, scanFirst (mGpsElem name) text = none) :
    stripGPSTagsFromXMP text = text := by
  unfold stripGPSTagsFromXMP
  have hgen : ∀ (names : List (List Char)),
      (∀ n ∈ names, scanFirst (mGpsElem n) text = none) →
      names.foldl (fun t n => removeAll (mGpsElem n) t) text = text := by
    intro names
    induction names with
    | nil => intro _; rfl
    | cons n ns ih =>
      intro hn
      rw [List.foldl_cons,
        removeAll_of_scanFirst_none _ _ (hn n (List.mem_cons_self _ _))]
      exact ih (fun x hx => hn x (List.mem_cons_of_mem _ hx))
  exact hgen gpsElemNames h

/-- C1 amended: on a document split as pre ++ tag ++ post where the
description-tag scanner first matches at the tag and consumes exactly the
tag (so no closing angle bracket hides inside an attribute value), and
where no element-form GPS tag pattern matches the updated document, the
GPS merge rewrites only the opening tag: every byte of pre and post -
all fields, attributes, namespace declarations and formatting the
operation does not own - is unchanged in the output.  Moreover, when the
tag itself carries no owned GPS attributes, sits on one line, ends in a
plain closing bracket with no earlier one, and is not self-closing, the
rewritten tag keeps every original byte except the final bracket as an
unchanged prefix, so unrelated custom attributes inside the tag are
preserved as well. -/
theorem gps_merge_frame (pre tag post : List Char) (coord : Gpx.Coordinate)
    (ts : Int) (newTag : List Char)
    (h1 : ∀ i, i < pre.length →
      matchDescOpenAt (List.drop i (pre ++ (tag ++ post))) = none)
    (h2 : matchDescOpenAt (tag ++ post) = some tag.length)
    (hupd : updateDescriptionTag tag coord ts = .ok newTag)
    (h3 : ∀ name ∈ gpsElemNames,
      scanFirst (mGpsElem name) (pre ++ (newTag ++ post)) = none) :
    mergeGPSInPlace (pre ++ (tag ++ post)) coord ts =
      .ok (pre ++ (newTag ++ post)) ∧
    (removeAll matchGpsAttrAt tag = tag → tag.contains '\n' = false →
      lastCharIdx '>' tag = some (tag.length - 1) →
      ¬ tag.dropLast.getLast? = some '/' →
      ∃ ins, newTag = tag.dropLast ++ ins) := by
  constructor
  · have hfind : findDescOpen (pre ++ (tag ++ post)) =
        some (pre.length, tag.length) := by
      unfold findDescOpen
      rw [scanFirst_append _ _ _ h1, scanFirst_of_match h2]
      simp
    unfold mergeGPSInPlace
    rw [hfind]
    dsimp only
    have hslice : List.take tag.length (List.drop pre.length (pre ++ (tag ++ post))) =
        tag := by
      rw [List.drop_left, List.take_left]
    rw [hslice, hupd]
    dsimp only
    have hpre : (pre ++ (tag ++ post)).take pre.length = pre := List.take_left _ _
    have hpost : (pre ++ (tag ++ post)).drop (pre.length + tag.length) = post := by
      rw [List.drop_append, List.drop_left]
    rw [hpre, hpost]
    rw [show pre ++ newTag ++ post = pre ++ (newTag ++ post) from by simp]
    rw [stripGPS_id _ h3]
  · intro hattrs hline hlast hslash
    unfold updateDescriptionTag at hupd
    rw [hattrs] at hupd
    unfold insertTagAttributes at hupd
    rw [if_neg (by simp [List.append_eq_nil])] at hupd
    rw [hlast] at hupd
    dsimp only at hupd
    rw [List.dropLast_eq_take] at hslash
    rw [if_neg hslash] at hupd
    have hline2 : (List.take (tag.length - 1) tag).contains '\n' = false := by
      by_contra hc
      have hc2 : (List.take (tag.length - 1) tag).contains '\n' = true :=
        Bool.not_eq_false _ |>.mp hc
      have hmem : '\n' ∈ List.take (tag.length - 1) tag := by simpa using hc2
      have hmem2 : '\n' ∈ tag := List.mem_of_mem_take hmem
      have hcon : tag.contains '\n' = true := by simpa using hmem2
      rw [hline] at hcon
      cases hcon
    rw [if_neg (by rw [hline2]; intro hh; cases hh)] at hupd
    rw [if_neg hslash] at hupd
    refine ⟨' ' :: List.intercalate [' ']
      ((if exifNamespaceMatch tag = true then []
        else ["xmlns:exif=\"http://ns.adobe.com/exif/1.0/\"".data]) ++
        (["exif:GPSLatitude=\"".data ++ (formatGPSCoordinate coord.latitude ['N'] ['S']).1 ++ ['"'],
          "exif:GPSLatitudeRef=\"".data ++ (formatGPSCoordinate coord.latitude ['N'] ['S']).2 ++ ['"'],
          "exif:GPSLongitude=\"".data ++ (formatGPSCoordinate coord.longitude ['E'] ['W']).1 ++ ['"'],
          "exif:GPSLongitudeRef=\"".data ++ (formatGPSCoordinate coord.longitude ['E'] ['W']).2 ++ ['"'],
          "exif:GPSVersionID=\"2.3.0.0\"".data,
          "exif:GPSDateStamp=\"".data ++ formatDateGo ts ++ ['"'],
          "exif:GPSTimeStamp=\"".data ++ formatTimeGo ts ++ ['"']] ++
          (match altParts coord.altitude with
           | none => []
           | some av =>
             ["exif:GPSAltitude=\"".data ++ format2f av.1 ++ ['"'],
              "exif:GPSAltitudeRef=\"".data ++ natDigits av.2 ++ ['"']]))) ++
      List.drop (tag.length - 1) tag, ?_⟩
    rw [List.dropLast_eq_take]
    injection hupd with hh
    rw [← hh]
    simp

def c1pre : List Char := "<x:xmpmeta><rdf:RDF>".data

def c1tag : List Char := "<rdf:Description rdf:about=\"\" custom:note=\"keep\">".data

def c1post : List Char := "</rdf:Description></rdf:RDF></x:xmpmeta>".data

def c1new : List Char :=
  ("<rdf:Description rdf:about=\"\" custom:note=\"keep\"" ++
   " xmlns:exif=\"http://ns.adobe.com/exif/1.0/\"" ++
   " exif:GPSLatitude=\"0,0N\" exif:GPSLatitudeRef=\"N\"" ++
   " exif:GPSLongitude=\"0,0E\" exif:GPSLongitudeRef=\"E\"" ++
   " exif:GPSVersionID=\"2.3.0.0\" exif:GPSDateStamp=\"1970:01:01\"" ++
   " exif:GPSTimeStamp=\"00:00:00\">").data

theorem gps_merge_frame_witness :
    mergeGPSInPlace (c1pre ++ (c1tag ++ c1post)) ⟨0, 0, none⟩ 0 =
      .ok (c1pre ++ (c1new ++ c1post)) ∧
    (∃ ins, c1new = c1tag.dropLast ++ ins) := by
  have h := gps_merge_frame c1pre c1tag c1post ⟨0, 0, none⟩ 0 c1new
    (by decide) (by decide) (by decide) (by decide)
  exact ⟨h.1, h.2 (by decide) (by decide) (by decide) (by decide)⟩

/-! Facts about the keyword pipeline, towards the idempotence analysis:
ASCII lower-casing, trimming idempotence, and the escape round trip. -/

theorem lowerChar_lt {c : Char} (h : lowerChar c = '<') : c = '<' := by
  unfold lowerChar at h
  split at h
  · next hc =>
    exfalso
    obtain ⟨hA, hZ⟩ := hc
    have h1 : ('A').val ≤ c.val := hA
    have h2 : ('A').val.toNat ≤ c.val.toNat := by exact_mod_cast h1
    have h1' : c.val ≤ ('Z').val := hZ
    have h2' : c.val.toNat ≤ ('Z').val.toNat := by exact_mod_cast h1'
    have h65 : 65 ≤ c.toNat := h2
    have h90 : c.toNat ≤ 90 := h2'
    have hv : (Char.ofNat (c.toNat + 32)).toNat = c.toNat + 32 := by
      unfold Char.ofNat
      rw [dif_pos (Or.inl (by omega : c.toNat + 32 < 55296))]
      rfl
    have h60 := congrArg Char.toNat h
    rw [hv] at h60
    have : c.toNat + 32 = 60 := h60
    omega
  · exact h

theorem dropWhile_head_false {p : Char → Bool} :
    ∀ {l : List Char} {c : Char} {rest : List Char},
      l.dropWhile p = c :: rest → p c = false
  | [], _, _, h => by simp at h
  | d :: t, c, rest, h => by
    by_cases hd : p d = true
    · rw [List.dropWhile_cons_of_pos hd] at h
      exact dropWhile_head_false h
    · rw [List.dropWhile_cons_of_neg hd] at h
      cases h
      exact Bool.eq_false_iff.mpr hd

theorem trimSpace_trimSpace (s : List Char) :
    trimSpace (trimSpace s) = trimSpace s := by
  unfold trimSpace
  set u := s.dropWhile isGoSpace with hu
  set r := u.reverse.dropWhile isGoSpace with hr
  have hfront : r.reverse.dropWhile isGoSpace = r.reverse := by
    cases hrev : r.reverse with
    | nil => simp
    | cons c t =>
      have hpre : r.reverse <+: u := by
        have hsuf : r <:+ u.reverse := hr ▸ List.dropWhile_suffix _
        have := List.reverse_prefix.mpr (by simpa using hsuf)
        simpa using this
      rw [hrev] at hpre
      obtain ⟨rest2, hrest2⟩ := hpre
      have hc : isGoSpace c = false := by
        apply @dropWhile_head_false isGoSpace s c (t ++ rest2)
        rw [← hu, ← hrest2]
        rfl
      rw [List.dropWhile_cons_of_neg (by simp [hc])]
  rw [hfront, List.reverse_reverse]
  have hback : r.dropWhile isGoSpace = r := by
    cases hR : r with
    | nil => simp
    | cons c t =>
      have hc : isGoSpace c = false := by
        apply @dropWhile_head_false isGoSpace u.reverse c t
        rw [← hr, hR]
      rw [List.dropWhile_cons_of_neg (by simp [hc])]
  rw [hback]

theorem xmlEscape_no_lt : ∀ kw : List Char, '<' ∉ xmlEscape kw := by
  intro kw
  induction kw with
  | nil => simp [xmlEscape]
  | cons c rest ih =>
    intro hmem
    rw [xmlEscape, List.mem_append] at hmem
    rcases hmem with hmem | hmem
    · by_cases h1 : c = '&'
      · rw [if_pos h1] at hmem; simp at hmem
      rw [if_neg h1] at hmem
      by_cases h2 : c = '<'
      · rw [if_pos h2] at hmem; simp at hmem
      rw [if_neg h2] at hmem
      by_cases h3 : c = '>'
      · rw [if_pos h3] at hmem; simp at hmem
      rw [if_neg h3] at hmem
      by_cases h4 : c = '"'
      · rw [if_pos h4] at hmem; simp at hmem
      rw [if_neg h4] at hmem
      by_cases h5 : c = apos
      · rw [if_pos h5] at hmem; simp at hmem
      rw [if_neg h5] at hmem
      simp at hmem
      exact h2 hmem.symm
    · exact ih hmem


theorem huf_step_amp (f : Nat) (E : List Char) :
    htmlUnescapeFuel (f + 1) ('&' :: 'a' :: 'm' :: 'p' :: ';' :: E) =
      '&' :: htmlUnescapeFuel f E := by
  show (if "&amp;".data.isPrefixOf ('&' :: 'a' :: 'm' :: 'p' :: ';' :: E) then
      '&' :: htmlUnescapeFuel f (('&' :: 'a' :: 'm' :: 'p' :: ';' :: E).drop 5)
    else if "&lt;".data.isPrefixOf ('&' :: 'a' :: 'm' :: 'p' :: ';' :: E) then
      '<' :: htmlUnescapeFuel f (('&' :: 'a' :: 'm' :: 'p' :: ';' :: E).drop 4)
    else if "&gt;".data.isPrefixOf ('&' :: 'a' :: 'm' :: 'p' :: ';' :: E) then
      '>' :: htmlUnescapeFuel f (('&' :: 'a' :: 'm' :: 'p' :: ';' :: E).drop 4)
    else if "&quot;".data.isPrefixOf ('&' :: 'a' :: 'm' :: 'p' :: ';' :: E) then
      '"' :: htmlUnescapeFuel f (('&' :: 'a' :: 'm' :: 'p' :: ';' :: E).drop 6)
    else if "&#39;".data.isPrefixOf ('&' :: 'a' :: 'm' :: 'p' :: ';' :: E) then
      apos :: htmlUnescapeFuel f (('&' :: 'a' :: 'm' :: 'p' :: ';' :: E).drop 5)
    else '&' :: htmlUnescapeFuel f ('a' :: 'm' :: 'p' :: ';' :: E)) = _
  rw [if_pos (by rw [List.isPrefixOf_iff_prefix]; exact ⟨E, rfl⟩)]
  rfl

theorem huf_step_lt (f : Nat) (E : List Char) :
    htmlUnescapeFuel (f + 1) ('&' :: 'l' :: 't' :: ';' :: E) =
      '<' :: htmlUnescapeFuel f E := by
  show (if "&amp;".data.isPrefixOf ('&' :: 'l' :: 't' :: ';' :: E) then
      '&' :: htmlUnescapeFuel f (('&' :: 'l' :: 't' :: ';' :: E).drop 5)
    else if "&lt;".data.isPrefixOf ('&' :: 'l' :: 't' :: ';' :: E) then
      '<' :: htmlUnescapeFuel f (('&' :: 'l' :: 't' :: ';' :: E).drop 4)
    else if "&gt;".data.isPrefixOf ('&' :: 'l' :: 't' :: ';' :: E) then
      '>' :: htmlUnescapeFuel f (('&' :: 'l' :: 't' :: ';' :: E).drop 4)
    else if "&quot;".data.isPrefixOf ('&' :: 'l' :: 't' :: ';' :: E) then
      '"' :: htmlUnescapeFuel f (('&' :: 'l' :: 't' :: ';' :: E).drop 6)
    else if "&#39;".data.isPrefixOf ('&' :: 'l' :: 't' :: ';' :: E) then
      apos :: htmlUnescapeFuel f (('&' :: 'l' :: 't' :: ';' :: E).drop 5)
    else '&' :: htmlUnescapeFuel f ('l' :: 't' :: ';' :: E)) = _
  rw [if_neg (by simp [List.isPrefixOf]),
    if_pos (by rw [List.isPrefixOf_iff_prefix]; exact ⟨E, rfl⟩)]
  rfl

theorem huf_step_gt (f : Nat) (E : List Char) :
    htmlUnescapeFuel (f + 1) ('&' :: 'g' :: 't' :: ';' :: E) =
      '>' :: htmlUnescapeFuel f E := by
  show (if "&amp;".data.isPrefixOf ('&' :: 'g' :: 't' :: ';' :: E) then
      '&' :: htmlUnescapeFuel f (('&' :: 'g' :: 't' :: ';' :: E).drop 5)
    else if "&lt;".data.isPrefixOf ('&' :: 'g' :: 't' :: ';' :: E) then
      '<' :: htmlUnescapeFuel f (('&' :: 'g' :: 't' :: ';' :: E).drop 4)
    else if "&gt;".data.isPrefixOf ('&' :: 'g' :: 't' :: ';' :: E) then
      '>' :: htmlUnescapeFuel f (('&' :: 'g' :: 't' :: ';' :: E).drop 4)
    else if "&quot;".data.isPrefixOf ('&' :: 'g' :: 't' :: ';' :: E) then
      '"' :: htmlUnescapeFuel f (('&' :: 'g' :: 't' :: ';' :: E).drop 6)
    else if "&#39;".data.isPrefixOf ('&' :: 'g' :: 't' :: ';' :: E) then
      apos :: htmlUnescapeFuel f (('&' :: 'g' :: 't' :: ';' :: E).drop 5)
    else '&' :: htmlUnescapeFuel f ('g' :: 't' :: ';' :: E)) = _
  rw [if_neg (by simp [List.isPrefixOf]), if_neg (by simp [List.isPrefixOf]),
    if_pos (by rw [List.isPrefixOf_iff_prefix]; exact ⟨E, rfl⟩)]
  rfl

theorem huf_step_quot (f : Nat) (E : List Char) :
    htmlUnescapeFuel (f + 1) ('&' :: 'q' :: 'u' :: 'o' :: 't' :: ';' :: E) =
      '"' :: htmlUnescapeFuel f E := by
  show (if "&amp;".data.isPrefixOf ('&' :: 'q' :: 'u' :: 'o' :: 't' :: ';' :: E) then
      '&' :: htmlUnescapeFuel f (('&' :: 'q' :: 'u' :: 'o' :: 't' :: ';' :: E).drop 5)
    else if "&lt;".data.isPrefixOf ('&' :: 'q' :: 'u' :: 'o' :: 't' :: ';' :: E) then
      '<' :: htmlUnescapeFuel f (('&' :: 'q' :: 'u' :: 'o' :: 't' :: ';' :: E).drop 4)
    else if "&gt;".data.isPrefixOf ('&' :: 'q' :: 'u' :: 'o' :: 't' :: ';' :: E) then
      '>' :: htmlUnescapeFuel f (('&' :: 'q' :: 'u' :: 'o' :: 't' :: ';' :: E).drop 4)
    else if "&quot;".data.isPrefixOf ('&' :: 'q' :: 'u' :: 'o' :: 't' :: ';' :: E) then
      '"' :: htmlUnescapeFuel f (('&' :: 'q' :: 'u' :: 'o' :: 't' :: ';' :: E).drop 6)
    else if "&#39;".data.isPrefixOf ('&' :: 'q' :: 'u' :: 'o' :: 't' :: ';' :: E) then
      apos :: htmlUnescapeFuel f (('&' :: 'q' :: 'u' :: 'o' :: 't' :: ';' :: E).drop 5)
    else '&' :: htmlUnescapeFuel f ('q' :: 'u' :: 'o' :: 't' :: ';' :: E)) = _
  rw [if_neg (by simp [List.isPrefixOf]), if_neg (by simp [List.isPrefixOf]),
    if_neg (by simp [List.isPrefixOf]),
    if_pos (by rw [List.isPrefixOf_iff_prefix]; exact ⟨E, rfl⟩)]
  rfl

theorem huf_step_num (f : Nat) (E : List Char) :
    htmlUnescapeFuel (f + 1) ('&' :: '#' :: '3' :: '9' :: ';' :: E) =
      apos :: htmlUnescapeFuel f E := by
  show (if "&amp;".data.isPrefixOf ('&' :: '#' :: '3' :: '9' :: ';' :: E) then
      '&' :: htmlUnescapeFuel f (('&' :: '#' :: '3' :: '9' :: ';' :: E).drop 5)
    else if "&lt;".data.isPrefixOf ('&' :: '#' :: '3' :: '9' :: ';' :: E) then
      '<' :: htmlUnescapeFuel f (('&' :: '#' :: '3' :: '9' :: ';' :: E).drop 4)
    else if "&gt;".data.isPrefixOf ('&' :: '#' :: '3' :: '9' :: ';' :: E) then
      '>' :: htmlUnescapeFuel f (('&' :: '#' :: '3' :: '9' :: ';' :: E).drop 4)
    else if "&quot;".data.isPrefixOf ('&' :: '#' :: '3' :: '9' :: ';' :: E) then
      '"' :: htmlUnescapeFuel f (('&' :: '#' :: '3' :: '9' :: ';' :: E).drop 6)
    else if "&#39;".data.isPrefixOf ('&' :: '#' :: '3' :: '9' :: ';' :: E) then
      apos :: htmlUnescapeFuel f (('&' :: '#' :: '3' :: '9' :: ';' :: E).drop 5)
    else '&' :: htmlUnescapeFuel f ('#' :: '3' :: '9' :: ';' :: E)) = _
  rw [if_neg (by simp [List.isPrefixOf]), if_neg (by simp [List.isPrefixOf]),
    if_neg (by simp [List.isPrefixOf]), if_neg (by simp [List.isPrefixOf]),
    if_pos (by rw [List.isPrefixOf_iff_prefix]; exact ⟨E, rfl⟩)]
  rfl

theorem huf_step_other (f : Nat) (c : Char) (E : List Char) (h1 : c ≠ '&') :
    htmlUnescapeFuel (f + 1) (c :: E) = c :: htmlUnescapeFuel f E := by
  show (if "&amp;".data.isPrefixOf (c :: E) then
      '&' :: htmlUnescapeFuel f ((c :: E).drop 5)
    else if "&lt;".data.isPrefixOf (c :: E) then
      '<' :: htmlUnescapeFuel f ((c :: E).drop 4)
    else if "&gt;".data.isPrefixOf (c :: E) then
      '>' :: htmlUnescapeFuel f ((c :: E).drop 4)
    else if "&quot;".data.isPrefixOf (c :: E) then
      '"' :: htmlUnescapeFuel f ((c :: E).drop 6)
    else if "&#39;".data.isPrefixOf (c :: E) then
      apos :: htmlUnescapeFuel f ((c :: E).drop 5)
    else c :: htmlUnescapeFuel f E) = _
  rw [if_neg (by simp [List.isPrefixOf]; intro hh; exact absurd hh.symm h1),
    if_neg (by simp [List.isPrefixOf]; intro hh; exact absurd hh.symm h1),
    if_neg (by simp [List.isPrefixOf]; intro hh; exact absurd hh.symm h1),
    if_neg (by simp [List.isPrefixOf]; intro hh; exact absurd hh.symm h1),
    if_neg (by simp [List.isPrefixOf]; intro hh; exact absurd hh.symm h1)]

theorem htmlUnescapeFuel_escape :
    ∀ (kw : List Char) (fuel : Nat), (xmlEscape kw).length ≤ fuel →
      htmlUnescapeFuel fuel (xmlEscape kw) = kw := by
  intro kw
  induction kw with
  | nil => intro fuel _; cases fuel <;> rfl
  | cons c rest ih =>
    intro fuel hle
    by_cases h1 : c = '&'
    · subst h1
      have hx : xmlEscape ('&' :: rest) =
          '&' :: 'a' :: 'm' :: 'p' :: ';' :: xmlEscape rest := rfl
      rw [hx] at hle ⊢
      cases fuel with
      | zero => simp at hle
      | succ f =>
        rw [huf_step_amp]
        exact congrArg _ (ih f (by simp at hle; omega))
    by_cases h2 : c = '<'
    · subst h2
      have hx : xmlEscape ('<' :: rest) =
          '&' :: 'l' :: 't' :: ';' :: xmlEscape rest := by
        show (if ('<' : Char) = '&' then _ else _) ++ _ = _
        rw [if_neg h1, if_pos rfl]
        rfl
      rw [hx] at hle ⊢
      cases fuel with
      | zero => simp at hle
      | succ f =>
        rw [huf_step_lt]
        exact congrArg _ (ih f (by simp at hle; omega))
    by_cases h3 : c = '>'
    · subst h3
      have hx : xmlEscape ('>' :: rest) =
          '&' :: 'g' :: 't' :: ';' :: xmlEscape rest := by
        show (if ('>' : Char) = '&' then _ else _) ++ _ = _
        rw [if_neg h1, if_neg h2, if_pos rfl]
        rfl
      rw [hx] at hle ⊢
      cases fuel with
      | zero => simp at hle
      | succ f =>
        rw [huf_step_gt]
        exact congrArg _ (ih f (by simp at hle; omega))
    by_cases h4 : c = '"'
    · subst h4
      have hx : xmlEscape ('"' :: rest) =
          '&' :: 'q' :: 'u' :: 'o' :: 't' :: ';' :: xmlEscape rest := by
        show (if ('"' : Char) = '&' then _ else _) ++ _ = _
        rw [if_neg h1, if_neg h2, if_neg h3, if_pos rfl]
        rfl
      rw [hx] at hle ⊢
      cases fuel with
      | zero => simp at hle
      | succ f =>
        rw [huf_step_quot]
        exact congrArg _ (ih f (by simp at hle; omega))
    by_cases h5 : c = apos
    · subst h5
      have hx : xmlEscape (apos :: rest) =
          '&' :: '#' :: '3' :: '9' :: ';' :: xmlEscape rest := by
        show (if apos = '&' then _ else _) ++ _ = _
        rw [if_neg h1, if_neg h2, if_neg h3, if_neg h4, if_pos rfl]
        rfl
      rw [hx] at hle ⊢
      cases fuel with
      | zero => simp at hle
      | succ f =>
        rw [huf_step_num]
        exact congrArg _ (ih f (by simp at hle; omega))
    · have hx : xmlEscape (c :: rest) = c :: xmlEscape rest := by
        show (if c = '&' then _ else _) ++ _ = _
        rw [if_neg h1, if_neg h2, if_neg h3, if_neg h4, if_neg h5]
        rfl
      rw [hx] at hle ⊢
      cases fuel with
      | zero => simp at hle
      | succ f =>
        rw [huf_step_other f c _ h1]
        exact congrArg _ (ih f (by simp at hle; omega))

theorem htmlUnescape_escape (kw : List Char) :
    htmlUnescape (xmlEscape kw) = kw :=
  htmlUnescapeFuel_escape kw (xmlEscape kw).length le_rfl

theorem startsCI_char {lit s : List Char} (h : startsCI lit s = true)
    {j : Nat} (hj : j < lit.length) :
    (s[j]?).map lowerChar = lit[j]? := by
  have hls : lowerStr (s.take lit.length) = lit := by
    unfold startsCI at h
    exact of_decide_eq_true h
  have h1 : lit[j]? = (lowerStr (s.take lit.length))[j]? := by
    rw [hls]
  simp only [lowerStr] at h1
  rw [List.getElem?_map] at h1
  rw [List.getElem?_take] at h1
  simp only [hj, if_pos] at h1
  exact h1.symm

/-- Position-wise refutation data for a case-insensitive literal search:
at every position whose character is the literal's telltale opening angle
bracket, some offset inside the text disagrees with the literal. -/
def charTest (lit s : List Char) : Prop :=
  ∀ i, (hi : i < s.length) → s[i] = '<' →
    ∃ j : Fin lit.length, i + j.val < s.length ∧
      ¬ ((s[i + j.val]?).map lowerChar = lit[j.val]?)

instance charTest.dec (lit s : List Char) : Decidable (charTest lit s) := by
  unfold charTest
  infer_instance

theorem startsCI_false_at {lit s : List Char} (tail : List Char)
    (h0 : lit[0]? = some '<') (h : charTest lit s) :
    ∀ i, i < s.length → startsCI lit (List.drop i (s ++ tail)) = false := by
  intro i hi
  by_contra hb
  have hT : startsCI lit (List.drop i (s ++ tail)) = true :=
    Bool.not_eq_false _ |>.mp hb
  have hlen0 : 0 < lit.length := by
    cases lit with
    | nil => simp at h0
    | cons a l => simp
  have hc0 := startsCI_char hT hlen0
  rw [List.getElem?_drop] at hc0
  have hget : (s ++ tail)[i + 0]? = some (s[i]) := by
    rw [List.getElem?_append]
    simp [hi, List.getElem?_eq_getElem hi]
  rw [hget, h0] at hc0
  have hlow : lowerChar (s[i]) = '<' := by
    simpa using hc0
  obtain ⟨j, hjs, hne⟩ := h i hi (lowerChar_lt hlow)
  have hcj := startsCI_char hT j.isLt
  rw [List.getElem?_drop] at hcj
  have hgj : (s ++ tail)[i + j.val]? = s[i + j.val]? := by
    rw [List.getElem?_append]
    simp [hjs]
  rw [hgj] at hcj
  exact hne hcj

theorem charTest_append {lit a b : List Char} (ha : charTest lit a)
    (hb : charTest lit b) : charTest lit (a ++ b) := by
  intro i hi hlt
  by_cases hia : i < a.length
  · have hgi : (a ++ b)[i] = a[i] := List.getElem_append_left hia
    obtain ⟨j, hjs, hne⟩ := ha i hia (by rw [← hgi]; exact hlt)
    refine ⟨j, by simp; omega, ?_⟩
    have : (a ++ b)[i + j.val]? = a[i + j.val]? := by
      rw [List.getElem?_append]
      simp [hjs]
    rw [this]
    exact hne
  · have hia' : a.length ≤ i := Nat.le_of_not_lt hia
    have hib : i - a.length < b.length := by
      simp at hi; omega
    have hgi : (a ++ b)[i] = b[i - a.length] := by
      rw [List.getElem_append_right hia']
    obtain ⟨j, hjs, hne⟩ := hb (i - a.length) hib (by rw [← hgi]; exact hlt)
    refine ⟨j, by simp; omega, ?_⟩
    have : (a ++ b)[i + j.val]? = b[i - a.length + j.val]? := by
      rw [List.getElem?_append]
      rw [if_neg (by omega)]
      congr 1
      omega
    rw [this]
    exact hne

theorem charTest_nil (lit : List Char) : charTest lit [] := by
  intro i hi
  simp at hi

theorem startsCI_of_pfx {lit p : List Char} (rest : List Char)
    (hp : startsCI lit p = true) (hlen : lit.length ≤ p.length) :
    startsCI lit (p ++ rest) = true := by
  unfold startsCI at hp ⊢
  rw [List.take_append_of_le_length hlen]
  exact hp

theorem matchTagPairAt_none_of {openPre s : List Char} (closeLit : List Char)
    (h : startsCI openPre s = false) :
    matchTagPairAt openPre closeLit s = none := by
  simp [matchTagPairAt, h]

theorem matchLiAt_none_of {s : List Char}
    (h : startsCI "<rdf:li".data s = false) : matchLiAt s = none := by
  simp [matchLiAt, h]

theorem findSub_of_startsCI {lit s : List Char} (h : startsCI lit s = true) :
    findSub lit s = some 0 := by
  cases s <;> simp [findSub, h]

theorem findSub_append (lit a b : List Char)
    (h : ∀ i, i < a.length → startsCI lit (List.drop i (a ++ b)) = false) :
    findSub lit (a ++ b) = (findSub lit b).map (· + a.length) := by
  induction a with
  | nil =>
    simp only [List.nil_append, List.length_nil]
    cases findSub lit b <;> simp
  | cons c a ih =>
    have h0 : startsCI lit (c :: (a ++ b)) = false := by
      simpa using h 0 (by simp)
    rw [List.cons_append]
    rw [show findSub lit (c :: (a ++ b)) =
      (findSub lit (a ++ b)).map (· + 1) from by simp [findSub, h0]]
    rw [ih (fun i hi => by simpa using h (i + 1) (by simp; omega))]
    cases findSub lit b <;> simp; omega

theorem list_ne_mismatch {a b : List Char} (h : ¬ a = b)
    (hla : a.length = b.length) :
    ∃ j, j < a.length ∧ ¬ (a[j]? = b[j]?) := by
  by_contra hall
  push_neg at hall
  apply h
  apply List.ext_getElem?
  intro j
  by_cases hj : j < a.length
  · exact hall j hj
  · rw [List.getElem?_eq_none (by omega), List.getElem?_eq_none (by omega)]

/-- The fixed header of a generated dc:subject block. -/
def subjHead : List Char := "<dc:subject>\n  <rdf:Bag>\n".data

/-- One generated rdf:li line. -/
def liChunk (kw : List Char) : List Char :=
  "    <rdf:li>".data ++ xmlEscape kw ++ "</rdf:li>\n".data

/-- The fixed footer of a generated dc:subject block. -/
def subjTail : List Char := "  </rdf:Bag>\n</dc:subject>".data

theorem buildSubjectBlock_eq (kws : List (List Char)) :
    buildSubjectBlock kws = subjHead ++ (kws.flatMap liChunk ++ subjTail) := by
  unfold buildSubjectBlock subjHead liChunk subjTail
  rw [List.append_assoc]

theorem charTest_of_no_lt {lit s : List Char} (h : '<' ∉ s) : charTest lit s :=
  fun i hi hlt => absurd (by rw [← hlt]; exact List.getElem_mem hi) h

theorem charTest_flatMap {lit : List Char} {f : List Char → List Char}
    {l : List (List Char)} (h : ∀ x ∈ l, charTest lit (f x)) :
    charTest lit (l.flatMap f) := by
  induction l with
  | nil => exact charTest_nil lit
  | cons x xs ih =>
    rw [List.flatMap_cons]
    exact charTest_append (h x (by simp)) (ih (fun y hy => h y (by simp [hy])))

theorem charTest_liChunk_subject (kw : List Char) :
    charTest "</dc:subject>".data (liChunk kw) := by
  unfold liChunk
  rw [List.append_assoc]
  exact charTest_append (by decide)
    (charTest_append (charTest_of_no_lt (xmlEscape_no_lt kw)) (by decide))

theorem charTest_concat_newline {lit t : List Char} (h0nl : '\n' ∉ lit)
    (hclean : ∀ i, i ≤ t.length → startsCI lit (List.drop i t) = false) :
    charTest lit (t ++ ['\n']) := by
  intro i hi hlt
  simp only [List.length_append, List.length_cons, List.length_nil] at hi
  by_cases hit : i < t.length
  · by_cases hfit : i + lit.length ≤ t.length
    · have hc := hclean i (le_of_lt hit)
      have hne : ¬ (lowerStr ((List.drop i t).take lit.length) = lit) := by
        intro hh
        rw [show startsCI lit (List.drop i t) = true from by
          unfold startsCI; exact decide_eq_true hh] at hc
        cases hc
      have hlen : (lowerStr ((List.drop i t).take lit.length)).length
          = lit.length := by
        simp [lowerStr]
        omega
      obtain ⟨j, hj, hjne⟩ := list_ne_mismatch hne hlen
      rw [hlen] at hj
      refine ⟨⟨j, hj⟩, by simp; omega, ?_⟩
      intro heq
      apply hjne
      have htrans : ((t ++ ['\n'])[i + j]?).map lowerChar
          = (lowerStr ((List.drop i t).take lit.length))[j]? := by
        simp only [lowerStr]
        rw [List.getElem?_map, List.getElem?_take, if_pos hj,
          List.getElem?_drop, List.getElem?_append, if_pos (by omega)]
      rw [← htrans]
      exact heq
    · refine ⟨⟨t.length - i, by omega⟩, by simp; omega, ?_⟩
      intro heq
      simp only at heq
      have h1 : (t ++ ['\n'])[i + (t.length - i)]? = some '\n' := by
        rw [List.getElem?_append, if_neg (by omega)]
        rw [show i + (t.length - i) - t.length = 0 from by omega]
        rfl
      rw [h1] at heq
      rw [show (some '\n').map lowerChar = some '\n' from by decide] at heq
      have hjl : t.length - i < lit.length := by omega
      rw [List.getElem?_eq_getElem hjl] at heq
      have hv : '\n' = lit[t.length - i] := by
        have := Option.some.inj heq
        exact this
      exact h0nl (by rw [hv]; exact List.getElem_mem hjl)
  · have hieq : i = t.length := by omega
    subst hieq
    have hch : (t ++ ['\n'])[t.length] = '\n' := by
      rw [List.getElem_append_right (le_refl _)]
      simp
    rw [hch] at hlt
    exact absurd hlt (by decide)

theorem findCharIdx_head (c : Char) (t : List Char) :
    findCharIdx c (c :: t) = some 0 := by
  simp [findCharIdx]

theorem findAllFuel_nil (m : List Char → Option Nat) (f : Nat) :
    findAllFuel m f [] = [] := by
  cases f <;> rfl

theorem collectLiFuel_nil (f : Nat) : collectLiFuel f [] = [] := by
  cases f <;> rfl

theorem mSubject_block (kws : List (List Char)) :
    mSubject (buildSubjectBlock kws) = some (buildSubjectBlock kws).length := by
  have hsubjTail : subjTail = "  </rdf:Bag>\n".data ++ "</dc:subject>".data := by
    decide
  have hshape : buildSubjectBlock kws =
      subjHead ++ (kws.flatMap liChunk ++
        ("  </rdf:Bag>\n".data ++ "</dc:subject>".data)) := by
    rw [buildSubjectBlock_eq, hsubjTail]
  rw [hshape]
  unfold mSubject matchTagPairAt
  rw [if_pos (startsCI_of_pfx _ (by decide) (by decide))]
  have hdrop11 : (subjHead ++ (kws.flatMap liChunk ++
      ("  </rdf:Bag>\n".data ++ "</dc:subject>".data))).drop
        ("<dc:subject".data.length) =
      '>' :: ("\n  <rdf:Bag>\n".data ++ (kws.flatMap liChunk ++
        ("  </rdf:Bag>\n".data ++ "</dc:subject>".data))) := by
    rw [List.drop_append_of_le_length (by decide)]
    rfl
  rw [hdrop11, findCharIdx_head]
  dsimp only
  have hdrop12 : (subjHead ++ (kws.flatMap liChunk ++
      ("  </rdf:Bag>\n".data ++ "</dc:subject>".data))).drop
        ("<dc:subject".data.length + 0 + 1) =
      ("\n  <rdf:Bag>\n".data ++ (kws.flatMap liChunk ++ "  </rdf:Bag>\n".data))
        ++ "</dc:subject>".data := by
    rw [List.drop_append_of_le_length (by decide)]
    rw [show ("\n  <rdf:Bag>\n".data ++ (kws.flatMap liChunk ++ "  </rdf:Bag>\n".data))
        ++ "</dc:subject>".data =
      "\n  <rdf:Bag>\n".data ++ (kws.flatMap liChunk ++
        ("  </rdf:Bag>\n".data ++ "</dc:subject>".data)) from by
      simp [List.append_assoc]]
    rfl
  rw [hdrop12]
  have hCT : charTest "</dc:subject>".data
      ("\n  <rdf:Bag>\n".data ++ (kws.flatMap liChunk ++ "  </rdf:Bag>\n".data)) :=
    charTest_append (by decide)
      (charTest_append (charTest_flatMap (fun kw _ => charTest_liChunk_subject kw))
        (by decide))
  rw [findSub_append _ _ _ (startsCI_false_at _ (by decide) hCT)]
  rw [findSub_of_startsCI (by decide)]
  simp only [Option.map_some']
  congr 1
  simp only [List.length_append, List.length_cons, List.length_nil]
  have e3 : (subjHead).length = 25 := rfl
  rw [e3]
  omega

theorem collectLiFuel_skip (pre rest : List Char) (f : Nat)
    (h : ∀ i, i < pre.length → matchLiAt (List.drop i (pre ++ rest)) = none) :
    collectLiFuel (pre.length + f) (pre ++ rest) = collectLiFuel f rest := by
  induction pre with
  | nil => simp
  | cons c p ih =>
    have h0 : matchLiAt (c :: (p ++ rest)) = none := by
      simpa using h 0 (by simp)
    rw [List.cons_append]
    rw [show (c :: p).length + f = (p.length + f) + 1 from by simp; omega]
    rw [show collectLiFuel ((p.length + f) + 1) (c :: (p ++ rest)) =
      collectLiFuel (p.length + f) (p ++ rest) from by
        simp only [collectLiFuel, h0]]
    exact ih (fun i hi => by simpa using h (i + 1) (by simp; omega))

theorem matchLiAt_chunk (esc rest : List Char) (h : '<' ∉ esc) :
    matchLiAt ("<rdf:li>".data ++ (esc ++ ("</rdf:li>\n".data ++ rest))) =
      some (17 + esc.length, esc) := by
  unfold matchLiAt
  rw [if_pos (startsCI_of_pfx _ (by decide) (by decide))]
  have hdrop7 : ("<rdf:li>".data ++ (esc ++ ("</rdf:li>\n".data ++ rest))).drop 7 =
      '>' :: (esc ++ ("</rdf:li>\n".data ++ rest)) := by
    rw [List.drop_append_of_le_length (by decide)]
    rfl
  rw [hdrop7, findCharIdx_head]
  dsimp only
  have hdrop8 : ("<rdf:li>".data ++ (esc ++ ("</rdf:li>\n".data ++ rest))).drop
      (7 + 0 + 1) = esc ++ ("</rdf:li>\n".data ++ rest) := by
    rw [show 7 + 0 + 1 = ("<rdf:li>".data).length from by decide]
    exact List.drop_left _ _
  rw [hdrop8]
  rw [findSub_append _ _ _
    (startsCI_false_at _ (by decide) (charTest_of_no_lt h))]
  rw [show findSub "</rdf:li>".data ("</rdf:li>\n".data ++ rest) = some 0 from
    findSub_of_startsCI (startsCI_of_pfx _ (by decide) (by decide))]
  simp only [Option.map_some', Nat.zero_add]
  rw [List.take_left]
  congr 2
  omega

theorem collectLi_chunks (kws : List (List Char)) (f : Nat) :
    collectLiFuel ((kws.flatMap liChunk ++ subjTail).length + f)
        (kws.flatMap liChunk ++ subjTail) =
      kws.map xmlEscape := by
  induction kws generalizing f with
  | nil =>
    simp only [List.flatMap_nil, List.nil_append, List.map_nil]
    have hskip := collectLiFuel_skip subjTail [] f (by
      intro i hi
      rw [List.append_nil]
      revert i hi
      decide)
    rw [List.append_nil] at hskip
    rw [hskip, collectLiFuel_nil]
  | cons kw kws ih =>
    have hsplit : ("    <rdf:li>".data : List Char) =
        "    ".data ++ "<rdf:li>".data := by decide
    have hshape : (kw :: kws).flatMap liChunk ++ subjTail =
        "    ".data ++ ("<rdf:li>".data ++ (xmlEscape kw ++
          ("</rdf:li>\n".data ++ (kws.flatMap liChunk ++ subjTail)))) := by
      rw [List.flatMap_cons]
      unfold liChunk
      rw [hsplit]
      simp [List.append_assoc]
    have hlen : ((kw :: kws).flatMap liChunk ++ subjTail).length + f =
        ("    ".data : List Char).length +
          (18 + (xmlEscape kw).length +
            (kws.flatMap liChunk ++ subjTail).length + f) := by
      rw [hshape]
      simp only [List.length_append, List.length_cons, List.length_nil]
      omega
    rw [hlen, hshape]
    rw [collectLiFuel_skip "    ".data _ _ (by
      intro i hi
      apply matchLiAt_none_of
      exact startsCI_false_at _ (by decide) (by decide) i hi)]
    have hcons : "<rdf:li>".data ++ (xmlEscape kw ++
        ("</rdf:li>\n".data ++ (kws.flatMap liChunk ++ subjTail))) =
        '<' :: ("rdf:li>".data ++ (xmlEscape kw ++
          ("</rdf:li>\n".data ++ (kws.flatMap liChunk ++ subjTail)))) := rfl
    have hm := matchLiAt_chunk (xmlEscape kw) (kws.flatMap liChunk ++ subjTail)
      (xmlEscape_no_lt kw)
    rw [hcons] at hm
    rw [show 18 + (xmlEscape kw).length +
        (kws.flatMap liChunk ++ subjTail).length + f =
      (17 + (xmlEscape kw).length +
        (kws.flatMap liChunk ++ subjTail).length + f) + 1 from by omega]
    rw [hcons]
    rw [show collectLiFuel
        ((17 + (xmlEscape kw).length +
          (kws.flatMap liChunk ++ subjTail).length + f) + 1)
        ('<' :: ("rdf:li>".data ++ (xmlEscape kw ++
          ("</rdf:li>\n".data ++ (kws.flatMap liChunk ++ subjTail))))) =
      xmlEscape kw :: collectLiFuel
        (17 + (xmlEscape kw).length +
          (kws.flatMap liChunk ++ subjTail).length + f)
        (('<' :: ("rdf:li>".data ++ (xmlEscape kw ++
          ("</rdf:li>\n".data ++ (kws.flatMap liChunk ++ subjTail))))).drop
            (17 + (xmlEscape kw).length)) from by
      simp only [collectLiFuel, hm]
      rw [if_neg (by omega)]]
    have hsplit2 : ("</rdf:li>\n".data : List Char) =
        "</rdf:li>".data ++ ['\n'] := by decide
    have hA : ('<' :: ("rdf:li>".data ++ (xmlEscape kw ++
        ("</rdf:li>\n".data ++ (kws.flatMap liChunk ++ subjTail))))) =
        ("<rdf:li>".data ++ (xmlEscape kw ++ "</rdf:li>".data)) ++
          ('\n' :: (kws.flatMap liChunk ++ subjTail)) := by
      rw [← hcons, hsplit2]
      simp [List.append_assoc]
    have hlenA : ("<rdf:li>".data ++ (xmlEscape kw ++ "</rdf:li>".data)).length =
        17 + (xmlEscape kw).length := by
      simp only [List.length_append, List.length_cons, List.length_nil]
      omega
    rw [hA, show 17 + (xmlEscape kw).length =
      ("<rdf:li>".data ++ (xmlEscape kw ++ "</rdf:li>".data)).length from
        hlenA.symm,
      List.drop_left]
    rw [show ("<rdf:li>".data ++ (xmlEscape kw ++ "</rdf:li>".data)).length +
        (kws.flatMap liChunk ++ subjTail).length + f =
      (['\n'] : List Char).length +
        ((kws.flatMap liChunk ++ subjTail).length +
          (16 + (xmlEscape kw).length + f)) from by
      rw [hlenA]
      simp only [List.length_cons, List.length_nil]
      omega]
    rw [show ('\n' :: (kws.flatMap liChunk ++ subjTail)) =
      ['\n'] ++ (kws.flatMap liChunk ++ subjTail) from rfl]
    rw [collectLiFuel_skip ['\n'] _ _ (by
      intro i hi
      apply matchLiAt_none_of
      exact startsCI_false_at _ (by decide)
        (charTest_of_no_lt (by decide)) i hi)]
    rw [ih (16 + (xmlEscape kw).length + f)]
    rfl

theorem findAll_single (m : List Char → Option Nat) (s : List Char) (st len : Nat)
    (hscan : scanFirst m s = some (st, len)) (hlen : len ≠ 0)
    (hful : st + len = s.length) :
    findAll m s = [(s.drop st).take len] := by
  unfold findAll
  have hne : s ≠ [] := by
    intro h
    subst h
    simp at hful
    omega
  obtain ⟨c, s', rfl⟩ := List.exists_cons_of_ne_nil hne
  simp only [List.length_cons]
  simp only [findAllFuel, hscan]
  rw [if_neg hlen]
  congr 1
  rw [show st + len = (c :: s').length from hful]
  rw [List.drop_length, findAllFuel_nil]

theorem collectLi_block (kws : List (List Char)) :
    collectLi (buildSubjectBlock kws) = kws.map xmlEscape := by
  unfold collectLi
  rw [buildSubjectBlock_eq]
  have hlen : (subjHead ++ (kws.flatMap liChunk ++ subjTail)).length =
      subjHead.length + ((kws.flatMap liChunk ++ subjTail).length + 0) := by
    simp
  rw [hlen]
  rw [collectLiFuel_skip subjHead _ _ (by
    intro i hi
    apply matchLiAt_none_of
    exact startsCI_false_at _ (by decide) (by decide) i hi)]
  exact collectLi_chunks kws 0

theorem filterMap_extract (l : List (List Char))
    (h : ∀ x ∈ l, trimSpace x = x ∧ x ≠ []) :
    (l.map xmlEscape).filterMap (fun cap =>
      let val := trimSpace (htmlUnescape cap)
      if val = [] then none else some val) = l := by
  induction l with
  | nil => rfl
  | cons x xs ih =>
    simp only [List.map_cons, List.filterMap_cons]
    obtain ⟨hx1, hx2⟩ := h x (by simp)
    rw [htmlUnescape_escape, hx1, if_neg hx2]
    exact congrArg (x :: ·) (ih (fun y hy => h y (by simp [hy])))

theorem extractKeywords_block (kws : List (List Char))
    (hkws : ∀ kw ∈ kws, trimSpace kw = kw ∧ kw ≠ []) :
    extractKeywords (buildSubjectBlock kws) = kws := by
  unfold extractKeywords
  rw [findAll_single mSubject _ 0 (buildSubjectBlock kws).length
    (scanFirst_of_match (mSubject_block kws))
    (by rw [buildSubjectBlock_eq]; simp [subjHead])
    (by omega)]
  simp only [List.drop_zero, List.take_length, List.flatMap_cons,
    List.flatMap_nil, List.append_nil]
  rw [collectLi_block]
  exact filterMap_extract kws hkws

theorem extractKeywords_prefixed (t : List Char) (kws : List (List Char))
    (hkws : ∀ kw ∈ kws, trimSpace kw = kw ∧ kw ≠ [])
    (hclean : ∀ i, i ≤ t.length →
      startsCI "<dc:subject".data (List.drop i t) = false) :
    extractKeywords ((t ++ ['\n']) ++ buildSubjectBlock kws) = kws := by
  unfold extractKeywords
  have hnone : ∀ i, i < (t ++ ['\n']).length →
      mSubject (List.drop i ((t ++ ['\n']) ++ buildSubjectBlock kws)) = none := by
    intro i hi
    apply matchTagPairAt_none_of
    exact startsCI_false_at _ (by decide)
      (charTest_concat_newline (by decide) hclean) i hi
  have hscan : scanFirst mSubject ((t ++ ['\n']) ++ buildSubjectBlock kws) =
      some (0 + (t ++ ['\n']).length, (buildSubjectBlock kws).length) := by
    rw [scanFirst_append _ _ _ hnone, scanFirst_of_match (mSubject_block kws)]
    rfl
  rw [findAll_single mSubject _ _ _ hscan
    (by rw [buildSubjectBlock_eq]; simp [subjHead])
    (by simp; omega)]
  rw [show (0 : Nat) + (t ++ ['\n']).length = (t ++ ['\n']).length from by omega]
  rw [List.drop_left, List.take_length]
  simp only [List.flatMap_cons, List.flatMap_nil, List.append_nil]
  rw [collectLi_block]
  exact filterMap_extract kws hkws

theorem dedupKeep_sub (ow : Bool) (ts : List (List Char)) :
    ∀ (ex seen : List (List Char)) (x : List Char),
      x ∈ (dedupKeep ow ts seen ex).2 → x ∈ ex := by
  intro ex
  induction ex with
  | nil => intro seen x hx; simp [dedupKeep] at hx
  | cons kw rest ih =>
    intro seen x hx
    rw [dedupKeep] at hx
    by_cases h1 : ow = true ∧ ts.contains (lowerStr kw) = true
    · rw [if_pos (by exact ⟨h1.1, h1.2⟩)] at hx
      exact List.mem_cons_of_mem _ (ih seen x hx)
    · rw [if_neg h1] at hx
      by_cases h2 : seen.contains (lowerStr kw) = true
      · rw [if_pos h2] at hx
        exact List.mem_cons_of_mem _ (ih seen x hx)
      · rw [if_neg h2] at hx
        simp only at hx
        rcases List.mem_cons.mp hx with hx | hx
        · exact hx ▸ List.mem_cons_self _ _
        · exact List.mem_cons_of_mem _ (ih _ x hx)

theorem dedupKeep_seen_mem (ow : Bool) (ts : List (List Char)) :
    ∀ (ex seen : List (List Char)) (x : List Char),
      x ∈ (dedupKeep ow ts seen ex).1 ↔
        x ∈ seen ∨ x ∈ (dedupKeep ow ts seen ex).2.map lowerStr := by
  intro ex
  induction ex with
  | nil => intro seen x; simp [dedupKeep]
  | cons kw rest ih =>
    intro seen x
    rw [dedupKeep]
    by_cases h1 : ow = true ∧ ts.contains (lowerStr kw) = true
    · rw [if_pos (by exact ⟨h1.1, h1.2⟩)]
      exact ih seen x
    · rw [if_neg h1]
      by_cases h2 : seen.contains (lowerStr kw) = true
      · rw [if_pos h2]
        exact ih seen x
      · rw [if_neg h2]
        simp only [List.map_cons, List.mem_cons]
        rw [ih (lowerStr kw :: seen) x]
        simp only [List.mem_cons]
        tauto

theorem addTags_sub : ∀ (seen ts : List (List Char)) (x : List Char),
    x ∈ addTags seen ts → x ∈ ts := by
  intro seen ts
  induction ts generalizing seen with
  | nil => intro x hx; simp [addTags] at hx
  | cons kw rest ih =>
    intro x hx
    rw [addTags] at hx
    by_cases h : seen.contains (lowerStr kw) = true
    · rw [if_pos h] at hx
      exact List.mem_cons_of_mem _ (ih seen x hx)
    · rw [if_neg h] at hx
      rcases List.mem_cons.mp hx with hx | hx
      · exact hx ▸ List.mem_cons_self _ _
      · exact List.mem_cons_of_mem _ (ih _ x hx)

theorem addTags_mem_or : ∀ (seen ts : List (List Char)) (t : List Char),
    t ∈ ts → lowerStr t ∈ seen ∨ lowerStr t ∈ (addTags seen ts).map lowerStr := by
  intro seen ts
  induction ts generalizing seen with
  | nil => intro t ht; simp at ht
  | cons kw rest ih =>
    intro t ht
    rw [addTags]
    by_cases h : seen.contains (lowerStr kw) = true
    · rw [if_pos h]
      rcases List.mem_cons.mp ht with ht | ht
      · subst ht
        left
        simpa using h
      · exact ih seen t ht
    · rw [if_neg h]
      rcases List.mem_cons.mp ht with ht | ht
      · subst ht
        right
        simp
      · rcases ih (lowerStr kw :: seen) t ht with hh | hh
        · rcases List.mem_cons.mp hh with hh | hh
          · right
            simp [hh]
          · left
            exact hh
        · right
          simp only [List.map_cons, List.mem_cons]
          right
          exact hh

theorem normalizeTagsAux_prop : ∀ (ts seen : List (List Char)) (x : List Char),
    x ∈ normalizeTagsAux seen ts → trimSpace x = x ∧ x ≠ [] := by
  intro ts
  induction ts with
  | nil => intro seen x hx; simp [normalizeTagsAux] at hx
  | cons t rest ih =>
    intro seen x hx
    rw [normalizeTagsAux] at hx
    by_cases h1 : trimSpace t = []
    · rw [if_pos h1] at hx
      exact ih seen x hx
    · rw [if_neg h1] at hx
      by_cases h2 : seen.contains (lowerStr (trimSpace t)) = true
      · rw [if_pos h2] at hx
        exact ih seen x hx
      · rw [if_neg h2] at hx
        rcases List.mem_cons.mp hx with hx | hx
        · subst hx
          exact ⟨trimSpace_trimSpace t, h1⟩
        · exact ih _ x hx

theorem extractKeywords_prop (s : List Char) :
    ∀ x ∈ extractKeywords s, trimSpace x = x ∧ x ≠ [] := by
  intro x hx
  unfold extractKeywords at hx
  obtain ⟨block, _, hx⟩ := List.mem_flatMap.mp hx
  obtain ⟨cap, _, heq⟩ := List.mem_filterMap.mp hx
  dsimp only at heq
  by_cases h : trimSpace (htmlUnescape cap) = []
  · rw [if_pos h] at heq
    cases heq
  · rw [if_neg h] at heq
    have hx2 := Option.some.inj heq
    subst hx2
    exact ⟨trimSpace_trimSpace _, h⟩

theorem mergeKeywordLists_prop (existing tags : List (List Char)) (ow : Bool)
    (hex : ∀ x ∈ existing, trimSpace x = x ∧ x ≠ [])
    (htg : ∀ x ∈ tags, trimSpace x = x ∧ x ≠ []) :
    ∀ x ∈ mergeKeywordLists existing tags ow, trimSpace x = x ∧ x ≠ [] := by
  intro x hx
  unfold mergeKeywordLists at hx
  dsimp only at hx
  have hperm := List.perm_insertionSort
    (fun a b => strLe a b = true)
    ((dedupKeep ow (tags.map lowerStr) [] existing).2 ++
      addTags (dedupKeep ow (tags.map lowerStr) [] existing).1 tags)
  have hx2 := hperm.mem_iff.mp hx
  rcases List.mem_append.mp hx2 with hx3 | hx3
  · exact hex x (dedupKeep_sub ow _ existing [] x hx3)
  · exact htg x (addTags_sub _ tags x hx3)

theorem containsAll_merged (existing tags : List (List Char)) :
    containsAll (mergeKeywordLists existing tags false) tags = true := by
  unfold containsAll
  by_cases he : tags.isEmpty = true
  · rw [if_pos he]
  · rw [if_neg he]
    rw [List.all_eq_true]
    intro t ht
    have hmem : lowerStr t ∈ (mergeKeywordLists existing tags false).map lowerStr := by
      unfold mergeKeywordLists
      dsimp only
      have hperm := List.perm_insertionSort
        (fun a b => strLe a b = true)
        ((dedupKeep false (tags.map lowerStr) [] existing).2 ++
          addTags (dedupKeep false (tags.map lowerStr) [] existing).1 tags)
      rw [List.mem_map]
      rcases addTags_mem_or (dedupKeep false (tags.map lowerStr) [] existing).1
          tags t ht with hh | hh
      · rcases (dedupKeep_seen_mem false (tags.map lowerStr) existing []
            (lowerStr t)).mp hh with hh2 | hh2
        · simp at hh2
        · obtain ⟨y, hy, hye⟩ := List.mem_map.mp hh2
          exact ⟨y, hperm.mem_iff.mpr (List.mem_append.mpr (Or.inl hy)), hye⟩
      · obtain ⟨y, hy, hye⟩ := List.mem_map.mp hh
        exact ⟨y, hperm.mem_iff.mpr (List.mem_append.mpr (Or.inr hy)), hye⟩
    simpa using hmem

/-- C6 counterexample: on this document the first keyword merge succeeds,
but the second call with the same single tag does not fail with
AlreadyPresent - it rewrites the stored bytes again.  The document's
non-keyword text (an XML comment) contains a dc:subject opener and an
rdf:li opener; after the first merge appends its keyword block, the
regex-driven extractor matches a block spanning from the comment into the
appended block and captures junk instead of the stored tag, so the
already-present check fails. -/
theorem keyword_merge_counterexample :
    mergeKeywordsDoc "<!--<dc:subject><rdf:li>-->".data ["t".data] false =
      .ok ("<!--<dc:subject><rdf:li>-->\n<dc:subject>\n  <rdf:Bag>\n    <rdf:li>t</rdf:li>\n  </rdf:Bag>\n</dc:subject>".data) ∧
    mergeKeywordsDoc
      "<!--<dc:subject><rdf:li>-->\n<dc:subject>\n  <rdf:Bag>\n    <rdf:li>t</rdf:li>\n  </rdf:Bag>\n</dc:subject>".data
      ["t".data] false ≠ .error .alreadyPresent ∧
    storedAfter
      "<!--<dc:subject><rdf:li>-->\n<dc:subject>\n  <rdf:Bag>\n    <rdf:li>t</rdf:li>\n  </rdf:Bag>\n</dc:subject>".data
      (mergeKeywordsDoc
        "<!--<dc:subject><rdf:li>-->\n<dc:subject>\n  <rdf:Bag>\n    <rdf:li>t</rdf:li>\n  </rdf:Bag>\n</dc:subject>".data
        ["t".data] false) ≠
      "<!--<dc:subject><rdf:li>-->\n<dc:subject>\n  <rdf:Bag>\n    <rdf:li>t</rdf:li>\n  </rdf:Bag>\n</dc:subject>".data := by
  refine ⟨by decide, by decide, by decide⟩

/-- C6 (amended): keyword merge is idempotent on clean documents.  When a
first merge call with overwrite off succeeds, and the document's
non-keyword remainder (the inner text with every dc:subject block removed
and trimmed) contains no case-insensitive occurrence of a dc:subject
opener - in particular whenever that remainder is empty, as in sidecars
the engine itself creates - then the second call with the same raw tag
list fails with AlreadyPresent and the stored bytes are unchanged. -/
theorem keyword_merge_idempotent (inner : List Char) (tags : List (List Char))
    (out : List Char)
    (h1 : mergeKeywordsDoc inner tags false = .ok out)
    (hclean : ∀ i, i ≤ (trimSpace (stripSubject inner)).length →
      startsCI "<dc:subject".data
        (List.drop i (trimSpace (stripSubject inner))) = false) :
    mergeKeywordsDoc out tags false = .error .alreadyPresent ∧
    storedAfter out (mergeKeywordsDoc out tags false) = out := by
  unfold mergeKeywordsDoc at h1
  dsimp only at h1
  by_cases hT : normalizeTags tags = []
  · rw [if_pos hT] at h1; cases h1
  rw [if_neg hT] at h1
  by_cases hCA : containsAll (extractKeywords inner) (normalizeTags tags) = true
  · have hr : mergeKeywordsInner inner (normalizeTags tags) false =
        (inner, false) := by
      unfold mergeKeywordsInner
      dsimp only
      rw [if_pos ⟨rfl, hCA⟩]
    rw [hr] at h1
    simp at h1
  · have hprops : ∀ x ∈ mergeKeywordLists (extractKeywords inner)
        (normalizeTags tags) false, trimSpace x = x ∧ x ≠ [] :=
      mergeKeywordLists_prop _ _ _ (extractKeywords_prop inner)
        (fun x hx => normalizeTagsAux_prop tags [] x hx)
    by_cases htr : trimSpace (stripSubject inner) = []
    · have hr : mergeKeywordsInner inner (normalizeTags tags) false =
          (buildSubjectBlock (mergeKeywordLists (extractKeywords inner)
            (normalizeTags tags) false), true) := by
        unfold mergeKeywordsInner
        dsimp only
        rw [if_neg (fun hh => hCA hh.2), if_pos htr]
      rw [hr] at h1
      rw [if_neg (by simp)] at h1
      have hout : out = buildSubjectBlock (mergeKeywordLists
          (extractKeywords inner) (normalizeTags tags) false) :=
        (Except.ok.inj h1).symm
      have hM : extractKeywords out = mergeKeywordLists
          (extractKeywords inner) (normalizeTags tags) false := by
        rw [hout]
        exact extractKeywords_block _ hprops
      have hr2 : mergeKeywordsInner out (normalizeTags tags) false =
          (out, false) := by
        unfold mergeKeywordsInner
        dsimp only
        rw [if_pos ⟨rfl, by rw [hM]; exact containsAll_merged _ _⟩]
      have hres : mergeKeywordsDoc out tags false = .error .alreadyPresent := by
        unfold mergeKeywordsDoc
        dsimp only
        rw [if_neg hT, hr2]
        rfl
      exact ⟨hres, by rw [hres]; rfl⟩
    · have hr : mergeKeywordsInner inner (normalizeTags tags) false =
          (trimSpace (stripSubject inner) ++ '\n' ::
            buildSubjectBlock (mergeKeywordLists (extractKeywords inner)
              (normalizeTags tags) false), true) := by
        unfold mergeKeywordsInner
        dsimp only
        rw [if_neg (fun hh => hCA hh.2), if_neg htr]
      rw [hr] at h1
      rw [if_neg (by simp)] at h1
      have hout : out = trimSpace (stripSubject inner) ++ '\n' ::
          buildSubjectBlock (mergeKeywordLists (extractKeywords inner)
            (normalizeTags tags) false) :=
        (Except.ok.inj h1).symm
      have hM : extractKeywords out = mergeKeywordLists
          (extractKeywords inner) (normalizeTags tags) false := by
        rw [hout]
        rw [show trimSpace (stripSubject inner) ++ '\n' ::
            buildSubjectBlock (mergeKeywordLists (extractKeywords inner)
              (normalizeTags tags) false) =
          (trimSpace (stripSubject inner) ++ ['\n']) ++
            buildSubjectBlock (mergeKeywordLists (extractKeywords inner)
              (normalizeTags tags) false) from by simp]
        exact extractKeywords_prefixed _ _ hprops hclean
      have hr2 : mergeKeywordsInner out (normalizeTags tags) false =
          (out, false) := by
        unfold mergeKeywordsInner
        dsimp only
        rw [if_pos ⟨rfl, by rw [hM]; exact containsAll_merged _ _⟩]
      have hres : mergeKeywordsDoc out tags false = .error .alreadyPresent := by
        unfold mergeKeywordsDoc
        dsimp only
        rw [if_neg hT, hr2]
        rfl
      exact ⟨hres, by rw [hres]; rfl⟩

theorem keyword_merge_idempotent_witness :
    mergeKeywordsDoc
      "<dc:subject>\n  <rdf:Bag>\n    <rdf:li>a</rdf:li>\n    <rdf:li>b</rdf:li>\n  </rdf:Bag>\n</dc:subject>".data
      ["b".data, "a".data] false = .error .alreadyPresent ∧
    storedAfter
      "<dc:subject>\n  <rdf:Bag>\n    <rdf:li>a</rdf:li>\n    <rdf:li>b</rdf:li>\n  </rdf:Bag>\n</dc:subject>".data
      (mergeKeywordsDoc
        "<dc:subject>\n  <rdf:Bag>\n    <rdf:li>a</rdf:li>\n    <rdf:li>b</rdf:li>\n  </rdf:Bag>\n</dc:subject>".data
        ["b".data, "a".data] false) =
      "<dc:subject>\n  <rdf:Bag>\n    <rdf:li>a</rdf:li>\n    <rdf:li>b</rdf:li>\n  </rdf:Bag>\n</dc:subject>".data :=
  keyword_merge_idempotent [] ["b".data, "a".data] _ (by decide) (by decide)

end Xmp


/-! Go's sort.Slice.  LoadTrack sorts its collected samples with
sort.Slice, which the Go runtime implements as an unstable pattern-defeating
quicksort (pdqsort) over a Less/Swap pair; the claim about tie order makes
the exact algorithm observable, so it is embedded here.  Lists stand for
the slice, swapL for data.Swap, lessAt for data.Less; every loop carries
fuel that strictly exceeds its Go iteration count, so the zero-fuel
fallbacks are never reached on the paths evaluated below. -/

namespace GoSort

variable {α : Type}

/-- data.Swap(i, j); out-of-range indices leave the slice unchanged
(Go never issues them). -/
def swapL (l : List α) (i j : Nat) : List α :=
  match l[i]?, l[j]? with
  | some x, some y => (l.set i y).set j x
  | _, _ => l

/-- data.Less(i, j). -/
def lessAt (less : α → α → Bool) (l : List α) (i j : Nat) : Bool :=
  match l[i]?, l[j]? with
  | some x, some y => less x y
  | _, _ => false

/-- bits.Len. -/
def bitsLen (n : Nat) : Nat := if n = 0 then 0 else Nat.log2 n + 1

/-- Inner loop of insertionSort_func: sink index j down to a. -/
def insInner (less : α → α → Bool) : Nat → List α → Nat → Nat → List α
  | 0, l, _, _ => l
  | f + 1, l, j, a =>
    if a < j ∧ lessAt less l j (j - 1) = true then
      insInner less f (swapL l j (j - 1)) (j - 1) a
    else l

/-- Outer loop of insertionSort_func: i runs from a+1 to b-1. -/
def insOuter (less : α → α → Bool) : Nat → List α → Nat → Nat → Nat → List α
  | 0, l, _, _, _ => l
  | f + 1, l, i, a, b =>
    if i < b then insOuter less f (insInner less i l i a) (i + 1) a b else l

/-- insertionSort_func(data, a, b). -/
def insertionSortFunc (less : α → α → Bool) (l : List α) (a b : Nat) :
    List α :=
  insOuter less (b - a) l (a + 1) a b

/-- siftDown_func loop. -/
def sdLoop (less : α → α → Bool) :
    Nat → List α → Nat → Nat → Nat → List α
  | 0, l, _, _, _ => l
  | f + 1, l, root, hi, first =>
    let child := 2 * root + 1
    if hi ≤ child then l
    else
      let child :=
        if child + 1 < hi ∧ lessAt less l (first + child) (first + child + 1)
        then child + 1 else child
      if lessAt less l (first + root) (first + child) = false then l
      else sdLoop less f (swapL l (first + root) (first + child)) child hi first

/-- siftDown_func(data, lo, hi, first). -/
def siftDownFunc (less : α → α → Bool) (l : List α) (lo hi first : Nat) :
    List α :=
  sdLoop less (hi + 1) l lo hi first

/-- First loop of heapSort_func: build the heap, i from (hi-1)/2 down to 0. -/
def hsBuild (less : α → α → Bool) (hi first : Nat) : Nat → List α → List α
  | 0, l => siftDownFunc less l 0 hi first
  | i + 1, l => hsBuild less hi first i (siftDownFunc less l (i + 1) hi first)

/-- Second loop of heapSort_func: pop the maximum, i from hi-1 down to 0. -/
def hsPop (less : α → α → Bool) (first : Nat) : Nat → List α → List α
  | 0, l => siftDownFunc less (swapL l first (first + 0)) 0 0 first
  | i + 1, l =>
    hsPop less first i
      (siftDownFunc less (swapL l first (first + (i + 1))) 0 (i + 1) first)

/-- heapSort_func(data, a, b). -/
def heapSortFunc (less : α → α → Bool) (l : List α) (a b : Nat) : List α :=
  let first := a
  let hi := b - a
  let l := hsBuild less hi first ((hi - 1) / 2) l
  if hi = 0 then l else hsPop less first (hi - 1) l

/-- reverseRange_func loop. -/
def revLoop : Nat → List α → Nat → Nat → List α
  | 0, l, _, _ => l
  | f + 1, l, i, j => if i < j then revLoop f (swapL l i j) (i + 1) (j - 1) else l

/-- reverseRange_func(data, a, b). -/
def reverseRangeFunc (l : List α) (a b : Nat) : List α :=
  revLoop b l a (b - 1)

/-- xorshift.Next on a 64-bit state. -/
def xorshiftNext (r : Nat) : Nat :=
  let r := (r ^^^ (r <<< 13)) % (2 ^ 64)
  let r := r ^^^ (r >>> 7)
  (r ^^^ (r <<< 17)) % (2 ^ 64)

/-- breakPatterns_func(data, a, b); masking with nextPowerOfTwo(length) - 1
is reduction modulo that power of two. -/
def breakPatternsFunc (l : List α) (a b : Nat) : List α :=
  let length := b - a
  if 8 ≤ length then
    let modulus := 2 ^ (bitsLen length)
    let idx := a + (length / 4) * 2 - 1
    let r1 := xorshiftNext (length % (2 ^ 64))
    let o1 := r1 % modulus
    let o1 := if length ≤ o1 then o1 - length else o1
    let l := swapL l (idx - 1 + 0) (a + o1)
    let r2 := xorshiftNext r1
    let o2 := r2 % modulus
    let o2 := if length ≤ o2 then o2 - length else o2
    let l := swapL l (idx - 1 + 1) (a + o2)
    let r3 := xorshiftNext r2
    let o3 := r3 % modulus
    let o3 := if length ≤ o3 then o3 - length else o3
    swapL l (idx - 1 + 2) (a + o3)
  else l

/-- order2_func: the index pair ordered by the data, counting a swap. -/
def order2Idx (less : α → α → Bool) (l : List α) (a b sw : Nat) :
    Nat × Nat × Nat :=
  if lessAt less l b a then (b, a, sw + 1) else (a, b, sw)

/-- median_func. -/
def medianIdx (less : α → α → Bool) (l : List α) (a b c sw : Nat) :
    Nat × Nat :=
  let (a, b, sw) := order2Idx less l a b sw
  let (b, _, sw) := order2Idx less l b c sw
  let (_, b, sw) := order2Idx less l a b sw
  (b, sw)

/-- medianAdjacent_func. -/
def medianAdjacentIdx (less : α → α → Bool) (l : List α) (a sw : Nat) :
    Nat × Nat :=
  medianIdx less l (a - 1) a (a + 1) sw

/-- choosePivot_func; the hint is encoded 0 = unknown, 1 = increasing,
2 = decreasing. -/
def choosePivotFunc (less : α → α → Bool) (l : List α) (a b : Nat) :
    Nat × Nat :=
  let len := b - a
  let i := a + len / 4 * 1
  let j := a + len / 4 * 2
  let k := a + len / 4 * 3
  if 8 ≤ len then
    let (i, j, k, sw) :=
      if 50 ≤ len then
        let (i, sw) := medianAdjacentIdx less l i 0
        let (j, sw) := medianAdjacentIdx less l j sw
        let (k, sw) := medianAdjacentIdx less l k sw
        (i, j, k, sw)
      else (i, j, k, 0)
    let (j, sw) := medianIdx less l i j k sw
    if sw = 0 then (j, 1) else if sw = 12 then (j, 2) else (j, 0)
  else (j, 1)

/-- while i <= j && data.Less(i, a): i++. -/
def skipLess (less : α → α → Bool) (l : List α) (a : Nat) :
    Nat → Nat → Nat → Nat
  | 0, i, _ => i
  | f + 1, i, j =>
    if i ≤ j ∧ lessAt less l i a then skipLess less l a f (i + 1) j else i

/-- while i <= j && !data.Less(j, a): j--. -/
def skipGeq (less : α → α → Bool) (l : List α) (a : Nat) :
    Nat → Nat → Nat → Nat
  | 0, _, j => j
  | f + 1, i, j =>
    if i ≤ j ∧ lessAt less l j a = false then skipGeq less l a f i (j - 1) else j

/-- Main loop of partition_func. -/
def partLoop (less : α → α → Bool) :
    Nat → List α → Nat → Nat → Nat → List α × Nat × Bool
  | 0, l, a, _, j => (swapL l j a, j, false)
  | f + 1, l, a, i, j =>
    let i := skipLess less l a (j + 2) i j
    let j := skipGeq less l a (j + 2) i j
    if j < i then (swapL l j a, j, false)
    else partLoop less f (swapL l i j) a (i + 1) (j - 1)

/-- partition_func(data, a, b, pivot). -/
def partitionFunc (less : α → α → Bool) (l : List α) (a b pivot : Nat) :
    List α × Nat × Bool :=
  let l := swapL l a pivot
  let i := a + 1
  let j := b - 1
  let i := skipLess less l a (j + 2) i j
  let j := skipGeq less l a (j + 2) i j
  if j < i then (swapL l j a, j, true)
  else partLoop less b (swapL l i j) a (i + 1) (j - 1)

/-- while i <= j && !data.Less(a, i): i++. -/
def skipEqI (less : α → α → Bool) (l : List α) (a : Nat) :
    Nat → Nat → Nat → Nat
  | 0, i, _ => i
  | f + 1, i, j =>
    if i ≤ j ∧ lessAt less l a i = false then skipEqI less l a f (i + 1) j else i

/-- while i <= j && data.Less(a, j): j--. -/
def skipEqJ (less : α → α → Bool) (l : List α) (a : Nat) :
    Nat → Nat → Nat → Nat
  | 0, _, j => j
  | f + 1, i, j =>
    if i ≤ j ∧ lessAt less l a j then skipEqJ less l a f i (j - 1) else j

/-- Loop of partitionEqual_func. -/
def partEqLoop (less : α → α → Bool) :
    Nat → List α → Nat → Nat → Nat → List α × Nat
  | 0, l, _, i, _ => (l, i)
  | f + 1, l, a, i, j =>
    let i := skipEqI less l a (j + 2) i j
    let j := skipEqJ less l a (j + 2) i j
    if j < i then (l, i)
    else partEqLoop less f (swapL l i j) a (i + 1) (j - 1)

/-- partitionEqual_func(data, a, b, pivot). -/
def partitionEqualFunc (less : α → α → Bool) (l : List α) (a b pivot : Nat) :
    List α × Nat :=
  let l := swapL l a pivot
  partEqLoop less b l a (a + 1) (b - 1)

/-- for i < b && !data.Less(i, i-1): i++. -/
def paiAdvance (less : α → α → Bool) (l : List α) (b : Nat) :
    Nat → Nat → Nat
  | 0, i => i
  | f + 1, i =>
    if i < b ∧ lessAt less l i (i - 1) = false then paiAdvance less l b f (i + 1)
    else i

/-- Left shift loop of partialInsertionSort_func. -/
def paiShiftLeft (less : α → α → Bool) : Nat → List α → Nat → List α
  | 0, l, _ => l
  | f + 1, l, j =>
    if j = 0 then l
    else if lessAt less l j (j - 1) = false then l
    else paiShiftLeft less f (swapL l j (j - 1)) (j - 1)

/-- Right shift loop of partialInsertionSort_func. -/
def paiShiftRight (less : α → α → Bool) (b : Nat) : Nat → List α → Nat → List α
  | 0, l, _ => l
  | f + 1, l, j =>
    if j < b then
      if lessAt less l j (j - 1) = false then l
      else paiShiftRight less b f (swapL l j (j - 1)) (j + 1)
    else l

/-- Step loop of partialInsertionSort_func (at most maxSteps = 5 rounds). -/
def paiOuter (less : α → α → Bool) (a b : Nat) :
    Nat → List α → Nat → List α × Bool
  | 0, l, _ => (l, false)
  | step + 1, l, i =>
    let i := paiAdvance less l b (b + 1) i
    if i = b then (l, true)
    else if b - a < 50 then (l, false)
    else
      let l := swapL l i (i - 1)
      let l := if 2 ≤ i - a then paiShiftLeft less i l (i - 1) else l
      let l := if 2 ≤ b - i then paiShiftRight less b b l (i + 1) else l
      paiOuter less a b step l i

/-- partialInsertionSort_func(data, a, b). -/
def partialInsertionSortFunc (less : α → α → Bool) (l : List α) (a b : Nat) :
    List α × Bool :=
  paiOuter less a b 5 l (a + 1)

/-- pdqsort_func: the iterative loop with its carried wasBalanced and
wasPartitioned flags; a recursive call resets both to true. -/
def pdqLoop (less : α → α → Bool) :
    Nat → List α → Nat → Nat → Nat → Bool → Bool → List α
  | 0, l, _, _, _, _, _ => l
  | fuel + 1, l, a, b, limit, wasBalanced, wasPartitioned =>
    let length := b - a
    if length ≤ 12 then insertionSortFunc less l a b
    else if limit = 0 then heapSortFunc less l a b
    else
      let (l, limit) :=
        if wasBalanced = false then (breakPatternsFunc l a b, limit - 1)
        else (l, limit)
      let (pivot, hint) := choosePivotFunc less l a b
      let (l, pivot, hint) :=
        if hint = 2 then (reverseRangeFunc l a b, (b - 1) - (pivot - a), 1)
        else (l, pivot, hint)
      let (l, sorted) :=
        if wasBalanced = true ∧ wasPartitioned = true ∧ hint = 1 then
          partialInsertionSortFunc less l a b
        else (l, false)
      if sorted = true then l
      else if 0 < a ∧ lessAt less l (a - 1) a = false then
        let (l, mid) := partitionEqualFunc less l a b pivot
        pdqLoop less fuel l mid b limit wasBalanced wasPartitioned
      else
        let (l, mid, alreadyPartitioned) := partitionFunc less l a b pivot
        let wasPartitioned := alreadyPartitioned
        let leftLen := mid - a
        let rightLen := b - mid
        let balanceThreshold := length / 8
        let wasBalanced := decide (balanceThreshold ≤ min leftLen rightLen)
        if leftLen < rightLen then
          let l := pdqLoop less fuel l a mid limit true true
          pdqLoop less fuel l (mid + 1) b limit wasBalanced wasPartitioned
        else
          let l := pdqLoop less fuel l (mid + 1) b limit true true
          pdqLoop less fuel l a mid limit wasBalanced wasPartitioned

/-- sort.Slice: pdqsort over the whole slice with limit = bits.Len(length). -/
def goSortSlice (less : α → α → Bool) (l : List α) : List α :=
  pdqLoop less (l.length * l.length + 64) l 0 l.length (bitsLen l.length)
    true true


/-! Every mutation of the sort goes through swapL, so each phase returns a
permutation of its input; the zero-fuel fallbacks return the input
unchanged and preserve this as well. -/

theorem swap_head_perm : ∀ (t : List α) (k : Nat) (a y : α),
    t[k]? = some y → (y :: t.set k a).Perm (a :: t) := by
  intro t
  induction t with
  | nil => intro k a y h; simp at h
  | cons c t' ih =>
    intro k a y h
    cases k with
    | zero =>
      simp at h
      rw [List.set_cons_zero, ← h]
      exact List.Perm.swap a c t'
    | succ m =>
      simp at h
      rw [List.set_cons_succ]
      have h1 : (y :: c :: t'.set m a).Perm (c :: y :: t'.set m a) :=
        List.Perm.swap c y _
      have h2 : (c :: y :: t'.set m a).Perm (c :: a :: t') :=
        (ih m a y h).cons c
      have h3 : (c :: a :: t').Perm (a :: c :: t') := List.Perm.swap a c t'
      exact h1.trans (h2.trans h3)

theorem set_set_perm : ∀ (l : List α) (i j : Nat) (x y : α),
    l[i]? = some x → l[j]? = some y → ((l.set i y).set j x).Perm l := by
  intro l
  induction l with
  | nil => intro i j x y hi; simp at hi
  | cons a t ih =>
    intro i j x y hi hj
    cases i with
    | zero =>
      simp at hi
      cases j with
      | zero =>
        simp at hj
        rw [List.set_cons_zero, List.set_cons_zero, ← hi]
      | succ k =>
        simp at hj
        rw [List.set_cons_zero, List.set_cons_succ, ← hi]
        exact swap_head_perm t k a y hj
    | succ m =>
      simp at hi
      cases j with
      | zero =>
        simp at hj
        rw [List.set_cons_succ, List.set_cons_zero, ← hj]
        exact swap_head_perm t m a x hi
      | succ k =>
        simp at hj
        rw [List.set_cons_succ, List.set_cons_succ]
        exact (ih m k x y hi hj).cons a

theorem swapL_perm (l : List α) (i j : Nat) : (swapL l i j).Perm l := by
  unfold swapL
  rcases hi : l[i]? with _ | x <;> rcases hj : l[j]? with _ | y <;> dsimp only
  · exact List.Perm.refl l
  · exact List.Perm.refl l
  · exact List.Perm.refl l
  · exact set_set_perm l i j x y hi hj

theorem insInner_perm (less : α → α → Bool) :
    ∀ (f : Nat) (l : List α) (j a : Nat), (insInner less f l j a).Perm l
  | 0, l, _, _ => List.Perm.refl l
  | f + 1, l, j, a => by
    rw [insInner]
    split
    · exact (insInner_perm less f _ _ _).trans (swapL_perm l j (j - 1))
    · exact List.Perm.refl l

theorem insOuter_perm (less : α → α → Bool) :
    ∀ (f : Nat) (l : List α) (i a b : Nat), (insOuter less f l i a b).Perm l
  | 0, l, _, _, _ => List.Perm.refl l
  | f + 1, l, i, a, b => by
    rw [insOuter]
    split
    · exact (insOuter_perm less f _ _ _ _).trans (insInner_perm less i l i a)
    · exact List.Perm.refl l

theorem insertionSortFunc_perm (less : α → α → Bool) (l : List α) (a b : Nat) :
    (insertionSortFunc less l a b).Perm l := by
  unfold insertionSortFunc
  exact insOuter_perm less (b - a) l (a + 1) a b

theorem sdLoop_perm (less : α → α → Bool) :
    ∀ (f : Nat) (l : List α) (root hi first : Nat),
      (sdLoop less f l root hi first).Perm l
  | 0, l, _, _, _ => List.Perm.refl l
  | f + 1, l, root, hi, first => by
    rw [sdLoop]
    dsimp only
    split
    · exact List.Perm.refl l
    · split
      · split
        · exact List.Perm.refl l
        · exact (sdLoop_perm less f _ _ _ _).trans (swapL_perm l _ _)
      · split
        · exact List.Perm.refl l
        · exact (sdLoop_perm less f _ _ _ _).trans (swapL_perm l _ _)

theorem siftDownFunc_perm (less : α → α → Bool) (l : List α)
    (lo hi first : Nat) : (siftDownFunc less l lo hi first).Perm l := by
  unfold siftDownFunc
  exact sdLoop_perm less (hi + 1) l lo hi first

theorem hsBuild_perm (less : α → α → Bool) (hi first : Nat) :
    ∀ (i : Nat) (l : List α), (hsBuild less hi first i l).Perm l
  | 0, l => siftDownFunc_perm less l 0 hi first
  | i + 1, l =>
    (hsBuild_perm less hi first i _).trans
      (siftDownFunc_perm less l (i + 1) hi first)

theorem hsPop_perm (less : α → α → Bool) (first : Nat) :
    ∀ (i : Nat) (l : List α), (hsPop less first i l).Perm l
  | 0, l =>
    (siftDownFunc_perm less _ 0 0 first).trans (swapL_perm l first (first + 0))
  | i + 1, l =>
    (hsPop_perm less first i _).trans
      ((siftDownFunc_perm less _ 0 (i + 1) first).trans
        (swapL_perm l first (first + (i + 1))))

theorem heapSortFunc_perm (less : α → α → Bool) (l : List α) (a b : Nat) :
    (heapSortFunc less l a b).Perm l := by
  unfold heapSortFunc
  change (if b - a = 0 then hsBuild less (b - a) a ((b - a - 1) / 2) l
    else hsPop less a (b - a - 1)
      (hsBuild less (b - a) a ((b - a - 1) / 2) l)).Perm l
  split
  · exact hsBuild_perm less (b - a) a ((b - a - 1) / 2) l
  · exact (hsPop_perm less a (b - a - 1) _).trans
      (hsBuild_perm less (b - a) a ((b - a - 1) / 2) l)

theorem revLoop_perm : ∀ (f : Nat) (l : List α) (i j : Nat),
    (revLoop f l i j).Perm l
  | 0, l, _, _ => List.Perm.refl l
  | f + 1, l, i, j => by
    rw [revLoop]
    split
    · exact (revLoop_perm f _ _ _).trans (swapL_perm l i j)
    · exact List.Perm.refl l

theorem reverseRangeFunc_perm (l : List α) (a b : Nat) :
    (reverseRangeFunc l a b).Perm l := by
  unfold reverseRangeFunc
  exact revLoop_perm b l a (b - 1)

theorem breakPatternsFunc_perm (l : List α) (a b : Nat) :
    (breakPatternsFunc l a b).Perm l := by
  unfold breakPatternsFunc
  dsimp only
  split
  · exact (swapL_perm _ _ _).trans ((swapL_perm _ _ _).trans (swapL_perm _ _ _))
  · exact List.Perm.refl l

theorem partLoop_perm (less : α → α → Bool) :
    ∀ (f : Nat) (l : List α) (a i j : Nat),
      ((partLoop less f l a i j).1).Perm l
  | 0, l, a, _, j => swapL_perm l j a
  | f + 1, l, a, i, j => by
    rw [partLoop]
    split
    · exact swapL_perm l _ _
    · exact (partLoop_perm less f _ _ _ _).trans (swapL_perm l _ _)

theorem partitionFunc_perm (less : α → α → Bool) (l : List α)
    (a b pivot : Nat) : ((partitionFunc less l a b pivot).1).Perm l := by
  unfold partitionFunc
  dsimp only
  split
  · exact (swapL_perm _ _ _).trans (swapL_perm l a pivot)
  · exact (partLoop_perm less b _ _ _ _).trans
      ((swapL_perm _ _ _).trans (swapL_perm l a pivot))

theorem partEqLoop_perm (less : α → α → Bool) :
    ∀ (f : Nat) (l : List α) (a i j : Nat),
      ((partEqLoop less f l a i j).1).Perm l
  | 0, l, _, _, _ => List.Perm.refl l
  | f + 1, l, a, i, j => by
    rw [partEqLoop]
    split
    · exact List.Perm.refl l
    · exact (partEqLoop_perm less f _ _ _ _).trans (swapL_perm l _ _)

theorem partitionEqualFunc_perm (less : α → α → Bool) (l : List α)
    (a b pivot : Nat) : ((partitionEqualFunc less l a b pivot).1).Perm l := by
  unfold partitionEqualFunc
  exact (partEqLoop_perm less b _ _ _ _).trans (swapL_perm l a pivot)

theorem paiShiftLeft_perm (less : α → α → Bool) :
    ∀ (f : Nat) (l : List α) (j : Nat), (paiShiftLeft less f l j).Perm l
  | 0, l, _ => List.Perm.refl l
  | f + 1, l, j => by
    rw [paiShiftLeft]
    split
    · exact List.Perm.refl l
    · split
      · exact List.Perm.refl l
      · exact (paiShiftLeft_perm less f _ _).trans (swapL_perm l _ _)

theorem paiShiftRight_perm (less : α → α → Bool) (b : Nat) :
    ∀ (f : Nat) (l : List α) (j : Nat), (paiShiftRight less b f l j).Perm l
  | 0, l, _ => List.Perm.refl l
  | f + 1, l, j => by
    rw [paiShiftRight]
    split
    · split
      · exact List.Perm.refl l
      · exact (paiShiftRight_perm less b f _ _).trans (swapL_perm l _ _)
    · exact List.Perm.refl l

theorem paiOuter_perm (less : α → α → Bool) (a b : Nat) :
    ∀ (st : Nat) (l : List α) (i : Nat), ((paiOuter less a b st l i).1).Perm l
  | 0, l, _ => List.Perm.refl l
  | st + 1, l, i => by
    rw [paiOuter]
    dsimp only
    split
    · exact List.Perm.refl l
    · split
      · exact List.Perm.refl l
      · refine (paiOuter_perm less a b st _ _).trans ?_
        split <;> split <;>
          first
            | exact (paiShiftRight_perm less b b _ _).trans
                ((paiShiftLeft_perm less _ _ _).trans (swapL_perm l _ _))
            | exact (paiShiftRight_perm less b b _ _).trans (swapL_perm l _ _)
            | exact (paiShiftLeft_perm less _ _ _).trans (swapL_perm l _ _)
            | exact swapL_perm l _ _

theorem partialInsertionSortFunc_perm (less : α → α → Bool) (l : List α)
    (a b : Nat) : ((partialInsertionSortFunc less l a b).1).Perm l := by
  unfold partialInsertionSortFunc
  exact paiOuter_perm less a b 5 l (a + 1)

theorem pdqLoop_perm (less : α → α → Bool) :
    ∀ (fuel : Nat) (l : List α) (a b limit : Nat) (wb wp : Bool),
      (pdqLoop less fuel l a b limit wb wp).Perm l
  | 0, l, _, _, _, _, _ => List.Perm.refl l
  | fuel + 1, l, a, b, limit, wb, wp => by
    rw [pdqLoop]
    change ((if b - a ≤ 12 then _ else _ : List α)).Perm l
    split
    · exact insertionSortFunc_perm less l a b
    change ((if limit = 0 then _ else _ : List α)).Perm l
    split
    · exact heapSortFunc_perm less l a b
    generalize hE1 : (if wb = false then (breakPatternsFunc l a b, limit - 1)
      else (l, limit)) = p1
    obtain ⟨l1, limit1⟩ := p1
    have hl1 : l1.Perm l := by
      split at hE1
      · cases hE1; exact breakPatternsFunc_perm l a b
      · cases hE1; exact List.Perm.refl l
    dsimp only
    generalize hE2 : choosePivotFunc less l1 a b = p2
    obtain ⟨pv, hint⟩ := p2
    dsimp only
    generalize hE3 : (if hint = 2 then
      (reverseRangeFunc l1 a b, (b - 1) - (pv - a), 1)
      else (l1, pv, hint)) = p3
    obtain ⟨l2, pv2, hint2⟩ := p3
    have hl2 : l2.Perm l1 := by
      split at hE3
      · cases hE3; exact reverseRangeFunc_perm l1 a b
      · cases hE3; exact List.Perm.refl l1
    dsimp only
    generalize hE4 : (if wb = true ∧ wp = true ∧ hint2 = 1 then
      partialInsertionSortFunc less l2 a b
      else (l2, false)) = p4
    obtain ⟨l3, srt⟩ := p4
    have hl3 : l3.Perm l2 := by
      split at hE4
      · have h := congrArg Prod.fst hE4
        dsimp only at h
        rw [← h]
        exact partialInsertionSortFunc_perm less l2 a b
      · cases hE4; exact List.Perm.refl l2
    dsimp only
    split
    · exact hl3.trans (hl2.trans hl1)
    split
    · generalize hE5 : partitionEqualFunc less l3 a b pv2 = p5
      obtain ⟨l4, mid⟩ := p5
      have hl4 : l4.Perm l3 := by
        have h := congrArg Prod.fst hE5
        dsimp only at h
        rw [← h]
        exact partitionEqualFunc_perm less l3 a b pv2
      dsimp only
      exact (pdqLoop_perm less fuel l4 mid b limit1 wb wp).trans
        (hl4.trans (hl3.trans (hl2.trans hl1)))
    · generalize hE6 : partitionFunc less l3 a b pv2 = p6
      obtain ⟨l4, mid, ap⟩ := p6
      have hl4 : l4.Perm l3 := by
        have h := congrArg Prod.fst hE6
        dsimp only at h
        rw [← h]
        exact partitionFunc_perm less l3 a b pv2
      dsimp only
      split
      · exact (pdqLoop_perm less fuel _ _ _ _ _ _).trans
          ((pdqLoop_perm less fuel l4 a mid limit1 true true).trans
            (hl4.trans (hl3.trans (hl2.trans hl1))))
      · exact (pdqLoop_perm less fuel _ _ _ _ _ _).trans
          ((pdqLoop_perm less fuel l4 (mid + 1) b limit1 true true).trans
            (hl4.trans (hl3.trans (hl2.trans hl1))))

theorem goSortSlice_perm (less : α → α → Bool) (l : List α) :
    (goSortSlice less l).Perm l := by
  unfold goSortSlice
  exact pdqLoop_perm less _ l 0 l.length (bitsLen l.length) true true

end GoSort

namespace Gpx

/-- LoadTrack (gpx file, lines 33-49) after parsing and collection: fails
when no track points were collected, otherwise indexes the samples
ordered by timestamp through sort.Slice with less = time.Before. -/
def LoadTrack (samples : List TrackPoint) : Except GpxErr (List TrackPoint) :=
  if samples.length = 0 then .error .noPoints
  else .ok (GoSort.goSortSlice (fun x y => decide (x.time < y.time)) samples)

/-- Modelled from the spec: a stable sort of the samples by timestamp -
samples with equal timestamps keep their original relative order. -/
def stableSortSpec (samples : List TrackPoint) : List TrackPoint :=
  samples.insertionSort (fun x y => decide (x.time ≤ y.time))

/-- The thirteen-sample track exercising the sort's tie handling; each
sample's latitude records its original position. -/
def c9samples : List TrackPoint :=
  [⟨⟨0, 0, none⟩, 2⟩, ⟨⟨1, 0, none⟩, 1⟩, ⟨⟨2, 0, none⟩, 1⟩,
   ⟨⟨3, 0, none⟩, 1⟩, ⟨⟨4, 0, none⟩, 1⟩, ⟨⟨5, 0, none⟩, 1⟩,
   ⟨⟨6, 0, none⟩, 2⟩, ⟨⟨7, 0, none⟩, 2⟩, ⟨⟨8, 0, none⟩, 2⟩,
   ⟨⟨9, 0, none⟩, 2⟩, ⟨⟨10, 0, none⟩, 2⟩, ⟨⟨11, 0, none⟩, 2⟩,
   ⟨⟨12, 0, none⟩, 1⟩]

/-- What LoadTrack actually produces on c9samples. -/
def c9out : List TrackPoint :=
  [⟨⟨12, 0, none⟩, 1⟩, ⟨⟨1, 0, none⟩, 1⟩, ⟨⟨2, 0, none⟩, 1⟩,
   ⟨⟨3, 0, none⟩, 1⟩, ⟨⟨4, 0, none⟩, 1⟩, ⟨⟨5, 0, none⟩, 1⟩,
   ⟨⟨6, 0, none⟩, 2⟩, ⟨⟨7, 0, none⟩, 2⟩, ⟨⟨8, 0, none⟩, 2⟩,
   ⟨⟨9, 0, none⟩, 2⟩, ⟨⟨10, 0, none⟩, 2⟩, ⟨⟨11, 0, none⟩, 2⟩,
   ⟨⟨0, 0, none⟩, 2⟩]

/-- C9 counterexample: on thirteen samples with tied timestamps, track
loading succeeds and returns a timestamp-ordered permutation of the
samples, but samples with equal timestamps do not keep their original
relative order - the result differs from the stable sort (sample 12 is
moved in front of samples 1-5, sample 0 behind samples 6-11), because
sort.Slice runs an unstable pdqsort. -/
theorem loadTrack_stable_counterexample :
    LoadTrack c9samples = .ok c9out ∧
    c9out.map TrackPoint.time = [1, 1, 1, 1, 1, 1, 2, 2, 2, 2, 2, 2, 2] ∧
    c9out.Perm c9samples ∧
    c9out ≠ stableSortSpec c9samples := by
  refine ⟨by decide, by decide, by decide, by decide⟩

/-- C9 (amended): track loading fails exactly when there are zero
samples, and a successful load returns a permutation of the samples;
sort.Slice arranges them by timestamp but is unstable, so samples with
equal timestamps may lose their original relative order (witnessed by
the counterexample above from thirteen samples on). -/
theorem loadTrack_error_iff_empty_and_permutes (samples : List TrackPoint) :
    (LoadTrack samples = .error .noPoints ↔ samples = []) ∧
    (∀ out, LoadTrack samples = .ok out → out.Perm samples) := by
  constructor
  · constructor
    · intro h
      unfold LoadTrack at h
      by_cases hlen : samples.length = 0
      · exact List.length_eq_zero.mp hlen
      · rw [if_neg hlen] at h; cases h
    · intro h
      subst h
      rfl
  · intro out h
    unfold LoadTrack at h
    by_cases hlen : samples.length = 0
    · rw [if_pos hlen] at h; cases h
    · rw [if_neg hlen] at h
      have h2 := Except.ok.inj h
      rw [← h2]
      exact GoSort.goSortSlice_perm _ samples

theorem loadTrack_error_iff_empty_and_permutes_witness :
    (LoadTrack c9samples = .error .noPoints ↔ c9samples = []) ∧
    c9out.Perm c9samples :=
  ⟨(loadTrack_error_iff_empty_and_permutes c9samples).1,
   (loadTrack_error_iff_empty_and_permutes c9samples).2 c9out (by decide)⟩

end Gpx

end GeoRAW
